import Mathlib

/-!
Verification development for the `ai_project_template` repository.

The repository has two engines:
* `create_project` in `src/command.rs` — the project materializer;
* `download_and_extract_presets` in `src/presets.rs` — the archive ingestor.

We give a shallow embedding of both over an explicit filesystem model.
Paths are modelled as lists of Unix path components, faithful to Rust's
`std::path::Path::components()`; the filesystem is a finite association
structure keyed by *unresolved* component sequences (the literal paths at
which the program issues its filesystem calls).  File contents are strings.
Clock time (`chrono::Local::now`), the HTTP download and the zip container
parsing are external inputs and appear as parameters (`datetime`,
`zipBytes`, the entry list).  OS error texts inside error messages are
abstracted as the fixed token `<io error>`.
-/

set_option autoImplicit false

namespace AiProjectTemplate

/-! ## Path components, modelling `std::path::Path` on Unix -/

/-- A single Unix path component, as produced by `Path::components()`. -/
inductive PathComp where
  | rootDir
  | curDir
  | parentDir
  | normal (s : String)
deriving DecidableEq, Repr

/-- A path: the sequence of its components. -/
abbrev FPath := List PathComp

/-- Split a character list on `'/'` (accumulator holds the current segment
reversed). -/
def splitSegsGo (cur : List Char) : List Char → List (List Char)
  | [] => [cur.reverse]
  | c :: rest =>
    if c = '/' then cur.reverse :: splitSegsGo [] rest
    else splitSegsGo (c :: cur) rest

/-- Split a character list on `'/'`. -/
def splitSegs (s : List Char) : List (List Char) := splitSegsGo [] s

/-- Turn one raw segment into a component; empty segments and `"."` are
normalized away, matching `Path::components()`. -/
def segToComp (seg : List Char) : Option PathComp :=
  if seg = [] then none
  else if seg = ['.'] then none
  else if seg = ['.', '.'] then some PathComp.parentDir
  else some (PathComp.normal (String.mk seg))

/-- `Path::components()` for a Unix path string: a leading `/` yields
`rootDir`, a leading `.` (only at the very beginning of a relative path)
yields `curDir`, every other `.` and every empty segment is dropped, and
`..` becomes `parentDir`. -/
def pathComponents (s : String) : FPath :=
  let segs := splitSegs s.data
  let core := segs.filterMap segToComp
  if s.data.head? = some '/' then PathComp.rootDir :: core
  else if segs.head? = some ['.'] then PathComp.curDir :: core
  else core

/-- `Path::join`: an absolute right operand replaces the left entirely,
otherwise the components are appended. -/
def pjoin (p : FPath) (s : String) : FPath :=
  let c := pathComponents s
  if c.head? = some PathComp.rootDir then c else p ++ c

/-- `Path::parent()` modelled on component lists: drop the last component.
(`Path::parent()` of a bare root or of the empty path is `None`; the
call sites below handle that case explicitly.) -/
def parentPath (p : FPath) : FPath := p.dropLast

/-- Render a component back to text (used only inside log/error strings,
modelling the `{:?}` debug formatting of paths). -/
def renderComp : PathComp → String
  | PathComp.rootDir => ""
  | PathComp.curDir => "."
  | PathComp.parentDir => ".."
  | PathComp.normal s => s

/-- Debug rendering of a path, modelling `format!("{:?}", path)`. -/
def pathRepr (p : FPath) : String :=
  "\"" ++ String.intercalate "/" (p.map renderComp) ++ "\""

/-! ## Filesystem model -/

/-- A filesystem snapshot: regular files with contents, directories, and
Unix permission bits, all keyed by the literal (unresolved) paths at which
the program issues its calls. -/
structure FS where
  files : List (FPath × String)
  dirs : List FPath
  perms : List (FPath × Nat)
deriving DecidableEq, Repr

/-- The content of the regular file at `p`, if one exists. -/
def FS.lookupFile (fs : FS) (p : FPath) : Option String :=
  (fs.files.find? (fun e => decide (e.1 = p))).map (fun e => e.2)

/-- Is there a regular file at `p`? -/
def FS.hasFileB (fs : FS) (p : FPath) : Bool := (fs.lookupFile p).isSome

/-- Is there a directory at `p`? -/
def FS.hasDirB (fs : FS) (p : FPath) : Bool :=
  fs.dirs.any (fun d => decide (d = p))

/-- `Path::exists()`: a file or a directory sits at `p`. -/
def FS.existsB (fs : FS) (p : FPath) : Bool := fs.hasFileB p || fs.hasDirB p

/-- Does the directory `p` contain anything, i.e. is there some entry
strictly below it?  This models `read_dir(p).next().is_some()`. -/
def FS.nonEmptyB (fs : FS) (p : FPath) : Bool :=
  fs.files.any (fun e => decide (p <+: e.1) && !decide (e.1 = p)) ||
  fs.dirs.any (fun d => decide (p <+: d) && !decide (d = p))

/-- Create or truncate the regular file at `p` with content `c`
(the success case of `fs::File::create` + write). -/
def FS.setFile (fs : FS) (p : FPath) (c : String) : FS :=
  { fs with files := (p, c) :: fs.files.filter (fun e => !decide (e.1 = p)) }

/-- `fs::File::create(p)` followed by writing `c`: fails (returns `none`)
when a directory sits at `p`, otherwise creates/truncates the file. -/
def FS.writeFile (fs : FS) (p : FPath) (c : String) : Option FS :=
  if fs.hasDirB p then none else some (fs.setFile p c)

/-- `fs::remove_file p` with errors ignored: drop the file entry if any. -/
def FS.removeFile (fs : FS) (p : FPath) : FS :=
  { fs with files := fs.files.filter (fun e => !decide (e.1 = p)) }

/-- `fs::set_permissions` with errors ignored (only metadata changes). -/
def FS.setPerm (fs : FS) (p : FPath) (m : Nat) : FS :=
  { fs with perms := (p, m) :: fs.perms.filter (fun e => !decide (e.1 = p)) }

/-- All non-empty prefixes of a path, shortest first: the directories
`create_dir_all` walks. -/
def prefixesOf (p : FPath) : List FPath :=
  (List.range p.length).map (fun i => p.take (i + 1))

/-- One step of `create_dir_all`: an existing directory is fine, an
existing regular file is a fatal error, otherwise the directory is made. -/
def mkdirGo (fs : FS) : List FPath → Option FS
  | [] => some fs
  | q :: rest =>
    if fs.hasDirB q then mkdirGo fs rest
    else if fs.hasFileB q then none
    else mkdirGo { fs with dirs := q :: fs.dirs } rest

/-- `fs::create_dir_all p`: create every missing prefix of `p`, failing if
a regular file occupies one of them. -/
def mkdirAll (fs : FS) (p : FPath) : Option FS := mkdirGo fs (prefixesOf p)

/-! ## `str::replace`, modelled on character lists

Rust's `str::replace` substitutes every non-overlapping occurrence of the
pattern, scanning left to right, in a single pass over the original string
(the replacement text is never rescanned).  The recursion consumes at
least one character per step when the pattern is non-empty, so we realize
it with a structural fuel argument equal to the subject length. -/

def listReplaceF (pat rep : List Char) : Nat → List Char → List Char
  | 0, s => s
  | _ + 1, [] => []
  | fuel + 1, c :: rest =>
    if pat <+: (c :: rest) then
      rep ++ listReplaceF pat rep fuel ((c :: rest).drop pat.length)
    else
      c :: listReplaceF pat rep fuel rest

/-- `str::replace` on character lists.  An empty pattern matches at every
boundary, exactly as in Rust (`"ab".replace("", "x") = "xaxbx"`); the
call sites in this repository always pass a brace-wrapped, hence
non-empty, pattern. -/
def listReplace (pat rep s : List Char) : List Char :=
  if pat = [] then rep ++ s.flatMap (fun c => c :: rep)
  else listReplaceF pat rep s.length s

/-- `str::to_uppercase`, modelled with the ASCII case mapping (the field
ids of this repository's presets are ASCII). -/
def rustToUpper (s : String) : String := String.mk (s.data.map Char.toUpper)

/-- `str::to_lowercase`, modelled with the ASCII case mapping. -/
def rustToLower (s : String) : String := String.mk (s.data.map Char.toLower)

/-- `str::replace` on strings: `rustReplace s pat rep` replaces every
occurrence of `pat` in `s` by `rep`. -/
def rustReplace (s pat rep : String) : String :=
  String.mk (listReplace pat.data rep.data s.data)

/-! ## Preset descriptor (`PresetConfig` in `src/presets.rs`) -/

/-- `TemplateConfig`: one template file to copy. -/
structure TemplateConfig where
  source : String
  destination : String
deriving DecidableEq, Repr

/-- `FieldConfig`: one declared dynamic input field (consumed by the UI;
the materializer only sees the resolved value mapping). -/
structure FieldConfig where
  id : String
  label : String
  required : Bool
  fieldType : String
  options : Option (List String)
  description : Option String
deriving DecidableEq, Repr

/-- `OptionConfig`: one declared boolean toggle. -/
structure OptionConfig where
  id : String
  label : String
  default : Bool
  description : Option String
deriving DecidableEq, Repr

/-- `PresetConfig`: the preset descriptor loaded from `files_config.json`. -/
structure PresetConfig where
  id : String
  name : String
  description : String
  directories : List String
  templates : List TemplateConfig
  emptyFiles : List String
  readmeTemplate : String
  fields : List FieldConfig
  options : List OptionConfig
deriving DecidableEq, Repr

/-! ## Log and error strings of `create_project` -/

def creatingProjectLine (p : FPath) : String :=
  "Creating project directory: " ++ pathRepr p

def creatingSubdirLine (p : FPath) : String :=
  "Creating subdirectory: " ++ pathRepr p

def skipTplLine (p : FPath) : String :=
  "Skipping existing file: " ++ pathRepr p

def warnTplLine (p : FPath) : String :=
  "Warning: Template source not found: " ++ pathRepr p

def copyTplLine (s d : FPath) : String :=
  "Copying template: " ++ pathRepr s ++ " -> " ++ pathRepr d

def skipEmptyLine (p : FPath) : String :=
  "Skipping existing empty file: " ++ pathRepr p

def creatingEmptyLine (p : FPath) : String :=
  "Creating empty file: " ++ pathRepr p

def genReadmeLine (p : FPath) : String :=
  "Generating README: " ++ pathRepr p

def successLine : String := "Project created successfully!"

/-- The `TargetNotEmpty` error text, naming the target path. -/
def notEmptyMsg (p : FPath) : String :=
  "Project directory " ++ pathRepr p ++
  " already exists and is not empty. Use --force to override."

def readDirFailMsg : String := "Failed to read project directory: <io error>"

def createProjectDirFailMsg : String :=
  "Failed to create project directory: <io error>"

def createDirFailMsg (p : FPath) : String :=
  "Failed to create directory " ++ pathRepr p ++ ": <io error>"

def parentFailMsg (p : FPath) : String :=
  "Failed to create parent directory for " ++ pathRepr p ++ ": <io error>"

def copyFailMsg (s d : FPath) : String :=
  "Failed to copy template " ++ pathRepr s ++ " to " ++ pathRepr d ++
  ": <io error>"

def emptyFailMsg (p : FPath) : String :=
  "Failed to create empty file " ++ pathRepr p ++ ": <io error>"

def readmeFailMsg (p : FPath) : String :=
  "Failed to create README " ++ pathRepr p ++ ": <io error>"

/-! ## The materializer (`create_project` in `src/command.rs`) -/

/-- `options.get(k).copied().unwrap_or(false)`. -/
def flag (opts : List (String × Bool)) (k : String) : Bool :=
  (opts.lookup k).getD false

/-- Intermediate state of a run: accumulated log lines plus filesystem. -/
abbrev MSt := List String × FS

/-- Result of a phase: either a fatal error (message plus the filesystem
reached so far) or the updated state. -/
abbrev MRes := Except (String × FS) MSt

/-- Sequencing of phases with error propagation (`?` in the Rust code). -/
def andThen (m : MRes) (f : MSt → MRes) : MRes :=
  match m with
  | Except.error e => Except.error e
  | Except.ok st => f st

/-- Step 2 of `create_project`: create each declared subdirectory in
descriptor order, logging before the call. -/
def subdirsPhase (pp : FPath) : List String → MSt → MRes
  | [], st => Except.ok st
  | d :: rest, (log, fs) =>
    let dirPath := pjoin pp d
    match mkdirAll fs dirPath with
    | none => Except.error (createDirFailMsg dirPath, fs)
    | some fs' => subdirsPhase pp rest (log ++ [creatingSubdirLine dirPath], fs')

/-- `fs::copy source dest`: read the source file's content and create the
destination with it; fails when the source is not a regular file or a
directory occupies the destination. -/
def copyOp (fs : FS) (src dest : FPath) : Option FS :=
  match fs.lookupFile src with
  | none => none
  | some c => fs.writeFile dest c

/-- Step 3 of `create_project`: for each declared template, skip when the
destination exists and `refresh` is unset, warn (non-fatally) when the
source is missing, otherwise create parent directories and copy. -/
def templatesPhase (psd pp : FPath) (refresh : Bool) :
    List TemplateConfig → MSt → MRes
  | [], st => Except.ok st
  | t :: rest, (log, fs) =>
    let srcPath := pjoin psd t.source
    let destPath := pjoin pp t.destination
    if fs.existsB destPath && !refresh then
      templatesPhase psd pp refresh rest (log ++ [skipTplLine destPath], fs)
    else if !(fs.existsB srcPath) then
      templatesPhase psd pp refresh rest (log ++ [warnTplLine srcPath], fs)
    else
      let log' := log ++ [copyTplLine srcPath destPath]
      match mkdirAll fs (parentPath destPath) with
      | none => Except.error (parentFailMsg destPath, fs)
      | some fs1 =>
        match copyOp fs1 srcPath destPath with
        | none => Except.error (copyFailMsg srcPath destPath, fs)
        | some fs2 => templatesPhase psd pp refresh rest (log', fs2)

/-- Step 4 of `create_project`: create each declared empty file, skipping
existing ones unless `refresh` is set. -/
def emptyFilesPhase (pp : FPath) (refresh : Bool) :
    List String → MSt → MRes
  | [], st => Except.ok st
  | f :: rest, (log, fs) =>
    let filePath := pjoin pp f
    if fs.existsB filePath && !refresh then
      emptyFilesPhase pp refresh rest (log ++ [skipEmptyLine filePath], fs)
    else
      let log' := log ++ [creatingEmptyLine filePath]
      match mkdirAll fs (parentPath filePath) with
      | none => Except.error (parentFailMsg filePath, fs)
      | some fs1 =>
        match fs1.writeFile filePath "" with
        | none => Except.error (emptyFailMsg filePath, fs)
        | some fs2 => emptyFilesPhase pp refresh rest (log', fs2)

/-- The README placeholder substitution of `create_project`
(lines 176–193 of `src/command.rs`): project name, then date, then each
entry of the resolved field mapping in iteration order, uppercase token
before lowercase token.  The mapping's iteration order is the list order
of `dynamicFields`. -/
def substituteReadme (template projectName datetime : String)
    (dynamicFields : List (String × String)) : String :=
  dynamicFields.foldl
    (fun acc kv =>
      rustReplace
        (rustReplace acc ("\x7b" ++ rustToUpper kv.1 ++ "\x7d") kv.2)
        ("\x7b" ++ rustToLower kv.1 ++ "\x7d") kv.2)
    (rustReplace
      (rustReplace
        (rustReplace
          (rustReplace template "{PROJECT_NAME}" projectName)
          "{project_name}" projectName)
        "{DATE}" datetime)
      "{date}" datetime)

/-- The final README text: heading, creation line, "what's next" heading,
then the substituted body. -/
def fullReadme (projectName datetime body : String) : String :=
  "# " ++ projectName ++ "\n\nСоздано: " ++ datetime ++
  "\n\n## Что дальше\n" ++ body

/-- Step 5 of `create_project`: regenerate the README when `refresh` is
set or no README exists yet at `targetRoot/README.md`. -/
def readmePhase (pp : FPath) (cfg : PresetConfig) (projectName : String)
    (dynamicFields : List (String × String)) (refresh : Bool)
    (datetime : String) : MSt → MRes
  | (log, fs) =>
    let readmePath := pjoin pp "README.md"
    if refresh || !(fs.existsB readmePath) then
      match fs.writeFile readmePath (fullReadme projectName datetime
        (substituteReadme cfg.readmeTemplate projectName datetime
          dynamicFields)) with
      | none => Except.error (readmeFailMsg readmePath, fs)
      | some fs' => Except.ok (log ++ [genReadmeLine readmePath], fs')
    else Except.ok (log, fs)

/-- Steps 1–4 of `create_project` (everything between the target check and
the README phase). -/
def preReadme (fs : FS) (pp pd : FPath) (cfg : PresetConfig)
    (refresh : Bool) : MRes :=
  match mkdirAll fs pp with
  | none => Except.error (createProjectDirFailMsg, fs)
  | some fs1 =>
    andThen (subdirsPhase pp cfg.directories ([creatingProjectLine pp], fs1))
      (fun st1 =>
        andThen (templatesPhase (pjoin pd cfg.id) pp refresh cfg.templates st1)
          (fun st2 => emptyFilesPhase pp refresh cfg.emptyFiles st2))

/-- Steps 1–5 of `create_project`. -/
def materialize (fs : FS) (pp pd : FPath) (cfg : PresetConfig)
    (projectName : String) (dynamicFields : List (String × String))
    (opts : List (String × Bool)) (datetime : String) : MRes :=
  andThen (preReadme fs pp pd cfg (flag opts "refresh"))
    (readmePhase pp cfg projectName dynamicFields (flag opts "refresh") datetime)

/-- Append the success marker on the happy path and flatten the result. -/
def finishRun : MRes → Except String (List String) × FS
  | Except.error (e, fs) => (Except.error e, fs)
  | Except.ok (log, fs) => (Except.ok (log ++ [successLine]), fs)

/-- `create_project` from `src/command.rs`: the full materializer.
`pp` is the project path, `pd` the presets root, `datetime` the captured
`chrono::Local::now()` text.  Returns the run's outcome together with the
filesystem state reached. -/
def createProject (fs : FS) (pp pd : FPath) (cfg : PresetConfig)
    (projectName : String) (dynamicFields : List (String × String))
    (opts : List (String × Bool)) (datetime : String) :
    Except String (List String) × FS :=
  let force := flag opts "force"
  if fs.existsB pp then
    if !(fs.hasDirB pp) then (Except.error readDirFailMsg, fs)
    else if fs.nonEmptyB pp && !force then (Except.error (notEmptyMsg pp), fs)
    else finishRun (materialize fs pp pd cfg projectName dynamicFields opts datetime)
  else finishRun (materialize fs pp pd cfg projectName dynamicFields opts datetime)

/-! ## The archive ingestor (`download_and_extract_presets` in `src/presets.rs`)

The HTTP fetch and the zip container parsing are external: the model takes
the downloaded bytes and the parsed entry list as parameters.  Each entry
carries the raw archive-internal name (`file.name()`), the decompressed
content, and the optional Unix mode bits. -/

/-- One zip archive entry as seen at the extraction call site. -/
structure ZEntry where
  name : String
  content : String
  unixMode : Option Nat
deriving DecidableEq, Repr

/-- Scan of `ZipFile::enclosed_name`: walk the components keeping a depth
counter; absolute paths are rejected outright and a `..` that would pop
below the archive root (depth underflow) rejects the name. -/
def enclosedOk : FPath → Nat → Bool
  | [], _ => true
  | PathComp.rootDir :: _, _ => false
  | PathComp.curDir :: rest, d => enclosedOk rest d
  | PathComp.parentDir :: rest, d =>
    match d with
    | 0 => false
    | d' + 1 => enclosedOk rest d'
  | PathComp.normal _ :: rest, d => enclosedOk rest (d + 1)

/-- `ZipFile::enclosed_name` from the `zip` crate: `None` when the raw
name contains a NUL byte, is absolute, or escapes the archive root via
`..`; otherwise the (unnormalized) component sequence of the name. -/
def enclosedName (name : String) : Option FPath :=
  if name.data.contains (Char.ofNat 0) then none
  else
    let comps := pathComponents name
    if enclosedOk comps 0 then some comps else none

/-- The known root-folder prefix stripped during extraction
(`ai_prompt_presets-main/`, compared component-wise as `Path::starts_with`
does, and removed with `Path::strip_prefix`). -/
def stripPresetRoot (comps : FPath) : FPath :=
  if comps.head? = some (PathComp.normal "ai_prompt_presets-main") then
    comps.tail
  else comps

/-- The target-relative output path of an entry: the enclosed name with
the root prefix stripped, or `none` when the entry is skipped. -/
def entryOut (e : ZEntry) : Option FPath :=
  (enclosedName e.name).map stripPresetRoot

/-- `file.name().ends_with('/')`: the container's directory marker. -/
def isDirEntry (e : ZEntry) : Bool := e.name.data.getLast? = some '/'

def zipDirFailMsg (p : FPath) : String :=
  "Failed to create dir " ++ pathRepr p ++ ": <io error>"

def zipParentFailMsg (p : FPath) : String :=
  "Failed to create parent dir " ++ pathRepr p ++ ": <io error>"

def zipFileFailMsg (p : FPath) : String :=
  "Failed to create file " ++ pathRepr p ++ ": <io error>"

def tempFileFailMsg (p : FPath) : String :=
  "Failed to create temp file " ++ pathRepr p ++ ": <io error>"

/-- `fs::set_permissions` applied when the entry carries Unix mode bits;
errors are ignored (`.ok()`). -/
def applyPerm (fs : FS) (p : FPath) : Option Nat → FS
  | none => fs
  | some m => fs.setPerm p m

/-- Extraction of a single archive entry (the body of the `for` loop at
lines 415–461 of `src/presets.rs`): skip silently when `enclosed_name`
rejects the name; otherwise strip the root prefix, join to `targetDir`,
create the directory (for a directory marker) or the parent directories
plus the file, then apply the stored permission bits. -/
def extractEntry (td : FPath) (fs : FS) (e : ZEntry) : Except String FS :=
  match entryOut e with
  | none => Except.ok fs
  | some out =>
    let fullPath := td ++ out
    if isDirEntry e then
      match mkdirAll fs fullPath with
      | none => Except.error (zipDirFailMsg fullPath)
      | some fs' => Except.ok (applyPerm fs' fullPath e.unixMode)
    else
      match mkdirAll fs (parentPath fullPath) with
      | none => Except.error (zipParentFailMsg (parentPath fullPath))
      | some fs1 =>
        match fs1.writeFile fullPath e.content with
        | none => Except.error (zipFileFailMsg fullPath)
        | some fs2 => Except.ok (applyPerm fs2 fullPath e.unixMode)

/-- The extraction loop over all entries, aborting on the first fatal
per-entry failure. -/
def extractAll (td : FPath) : List ZEntry → FS → Except String FS
  | [], fs => Except.ok fs
  | e :: rest, fs =>
    match extractEntry td fs e with
    | Except.error m => Except.error m
    | Except.ok fs' => extractAll td rest fs'

/-- `target_dir.parent().unwrap_or(target_dir)` on component lists. -/
def parentOr (td : FPath) : FPath :=
  match td with
  | [] => []
  | [PathComp.rootDir] => [PathComp.rootDir]
  | _ => td.dropLast

/-- The temporary archive location `presets_temp.zip` in the target's
parent directory. -/
def tempZipPath (td : FPath) : FPath :=
  parentOr td ++ [PathComp.normal "presets_temp.zip"]

/-- `download_and_extract_presets` with the network and zip-container
layers abstracted: persist the downloaded bytes to the temp file, run the
extraction loop, then best-effort delete the temp file. -/
def downloadAndExtractPresets (td : FPath) (zipBytes : String)
    (entries : List ZEntry) (fs : FS) : Except String FS :=
  let temp := tempZipPath td
  match fs.writeFile temp zipBytes with
  | none => Except.error (tempFileFailMsg temp)
  | some fs1 =>
    match extractAll td entries fs1 with
    | Except.error m => Except.error m
    | Except.ok fs2 => Except.ok (fs2.removeFile temp)

/-- The literal path at which an entry's *file* content is written
(`none` for skipped entries and directory markers). -/
def fileDest (td : FPath) (e : ZEntry) : Option FPath :=
  match entryOut e with
  | none => none
  | some out => if isDirEntry e then none else some (td ++ out)

/-- Lexical resolution of a component sequence against an (already
resolved) stack of names: `..` pops, escaping below the stack base is an
error.  Used to interpret unresolved keys as real locations. -/
def resolveFrom (stack : List String) : FPath → Option (List String)
  | [] => some stack
  | PathComp.rootDir :: _ => none
  | PathComp.curDir :: rest => resolveFrom stack rest
  | PathComp.parentDir :: rest =>
    match stack with
    | [] => none
    | _ => resolveFrom stack.dropLast rest
  | PathComp.normal s :: rest => resolveFrom (stack ++ [s]) rest

/-- The log line a template produces on a run that performs no copy:
skip when the destination exists, warning otherwise. -/
def warnOrSkipLine (psd pp : FPath) (fs : FS) (t : TemplateConfig) : String :=
  if fs.existsB (pjoin pp t.destination) then
    skipTplLine (pjoin pp t.destination)
  else warnTplLine (pjoin psd t.source)

/-! ## Concrete fixtures used to exercise the theorems -/

/-- A project path. -/
def wProj : FPath := [PathComp.normal "proj"]

/-- A presets root path. -/
def wPresets : FPath := [PathComp.normal "presets"]

/-- A small preset: one subdirectory, one template, one empty file. -/
def wCfg : PresetConfig :=
  { id := "sw", name := "Software", description := ""
    directories := ["d"]
    templates := [{ source := "a.txt", destination := "a.txt" }]
    emptyFiles := ["e.txt"]
    readmeTemplate := "R {project_name}"
    fields := []
    options := [] }

/-- A preset declaring a field `myfield` whose README template consists of
that field's uppercase token. -/
def wCfgMyfield : PresetConfig :=
  { id := "sw", name := "Software", description := ""
    directories := []
    templates := []
    emptyFiles := []
    readmeTemplate := "{MYFIELD}"
    fields := [{ id := "myfield", label := "My field", required := false
                 fieldType := "text", options := none, description := none }]
    options := [] }

/-- The empty filesystem. -/
def wEmptyFS : FS := { files := [], dirs := [], perms := [] }

/-- A filesystem carrying the preset source file of `wCfg`. -/
def wSrcFS : FS :=
  { files := [([PathComp.normal "presets", PathComp.normal "sw",
      PathComp.normal "a.txt"], "tpl")]
    dirs := [[PathComp.normal "presets"],
      [PathComp.normal "presets", PathComp.normal "sw"]]
    perms := [] }

/-- A filesystem whose project directory already holds a file. -/
def wBusyFS : FS :=
  { files := [([PathComp.normal "proj", PathComp.normal "x"], "y")]
    dirs := [[PathComp.normal "proj"]]
    perms := [] }

/-- A filesystem whose project directory already holds a README. -/
def wReadmeFS : FS :=
  { files := [([PathComp.normal "proj", PathComp.normal "README.md"], "OLD")]
    dirs := [[PathComp.normal "proj"]]
    perms := [] }

/-- An extraction target directory. -/
def wTd : FPath := [PathComp.normal "home", PathComp.normal "presets"]

/-- A well-formed archive entry under the published root prefix. -/
def wGoodEntry : ZEntry :=
  { name := "ai_prompt_presets-main/a/b.txt", content := "new", unixMode := none }

/-- An archive entry whose `..` segment survives prefix stripping. -/
def wEvilEntry : ZEntry :=
  { name := "ai_prompt_presets-main/../evil.txt", content := "owned"
    unixMode := none }

/-- A pre-existing file inside the extraction target. -/
def wKeepPath : FPath := wTd ++ [PathComp.normal "keepme.txt"]

/-- The extraction target populated with `wKeepPath`. -/
def wKeepFS : FS :=
  { files := [(wKeepPath, "old")]
    dirs := [[PathComp.normal "home"], wTd]
    perms := [] }

/-- The filesystem after extracting `wGoodEntry` into `wKeepFS`. -/
def wKeepPostFS : FS :=
  { files := [(wTd ++ [PathComp.normal "a", PathComp.normal "b.txt"], "new"),
      (wKeepPath, "old")]
    dirs := [wTd ++ [PathComp.normal "a"], [PathComp.normal "home"], wTd]
    perms := [] }

/-- The filesystem after extracting `wGoodEntry` into the empty filesystem. -/
def wEmptyPostFS : FS :=
  { files := [(wTd ++ [PathComp.normal "a", PathComp.normal "b.txt"], "new")]
    dirs := [wTd ++ [PathComp.normal "a"], wTd, [PathComp.normal "home"]]
    perms := [] }

/-! ## Basic facts about the filesystem operations -/

theorem find?_filter_ne {β : Type} (l : List (FPath × β)) (p q : FPath)
    (h : q ≠ p) :
    (l.filter (fun e => !decide (e.1 = p))).find? (fun e => decide (e.1 = q)) =
      l.find? (fun e => decide (e.1 = q)) := by
  induction l with
  | nil => rfl
  | cons a rest ih =>
    by_cases hap : a.1 = p
    · have h1 : (decide (a.1 = p)) = true := by simp [hap]
      have h2 : (decide (a.1 = q)) = false := by
        simp only [decide_eq_false_iff_not]
        intro hq; exact h (hq ▸ hap ▸ rfl)
      simp [List.filter_cons, List.find?_cons, h1, h2, ih]
    · have h1 : (decide (a.1 = p)) = false := by simp [hap]
      by_cases haq : a.1 = q
      · have h2 : (decide (a.1 = q)) = true := decide_eq_true haq
        simp [List.filter_cons, List.find?_cons, h1, h2]
      · have h2 : (decide (a.1 = q)) = false := by simp [haq]
        simp [List.filter_cons, List.find?_cons, h1, h2, ih]

theorem lookupFile_setFile_self (fs : FS) (p : FPath) (c : String) :
    (fs.setFile p c).lookupFile p = some c := by
  simp [FS.setFile, FS.lookupFile, List.find?_cons]

theorem lookupFile_setFile_ne (fs : FS) (p q : FPath) (c : String)
    (h : q ≠ p) : (fs.setFile p c).lookupFile q = fs.lookupFile q := by
  have hne : (decide (p = q)) = false := by
    simp only [decide_eq_false_iff_not]
    intro hq; exact h hq.symm
  simp [FS.setFile, FS.lookupFile, List.find?_cons, hne, find?_filter_ne _ _ _ h]

theorem dirs_setFile (fs : FS) (p : FPath) (c : String) :
    (fs.setFile p c).dirs = fs.dirs := rfl

theorem hasDirB_setFile (fs : FS) (p q : FPath) (c : String) :
    (fs.setFile p c).hasDirB q = fs.hasDirB q := rfl

theorem hasFileB_setFile_mono (fs : FS) (p q : FPath) (c : String)
    (h : fs.hasFileB q = true) : (fs.setFile p c).hasFileB q = true := by
  by_cases hqp : q = p
  · subst hqp
    simp [FS.hasFileB, lookupFile_setFile_self]
  · simpa [FS.hasFileB, lookupFile_setFile_ne fs p q c hqp] using h

theorem writeFile_eq_some (fs fs' : FS) (p : FPath) (c : String)
    (h : fs.writeFile p c = some fs') :
    fs.hasDirB p = false ∧ fs' = fs.setFile p c := by
  unfold FS.writeFile at h
  by_cases hd : fs.hasDirB p
  · simp [hd] at h
  · refine ⟨by simpa using hd, ?_⟩
    simp [hd] at h
    exact h.symm

theorem lookupFile_removeFile_ne (fs : FS) (p q : FPath) (h : q ≠ p) :
    (fs.removeFile p).lookupFile q = fs.lookupFile q := by
  simp [FS.removeFile, FS.lookupFile, find?_filter_ne _ _ _ h]

theorem lookupFile_setPerm (fs : FS) (p q : FPath) (m : Nat) :
    (fs.setPerm p m).lookupFile q = fs.lookupFile q := rfl

theorem lookupFile_applyPerm (fs : FS) (p q : FPath) (m? : Option Nat) :
    (applyPerm fs p m?).lookupFile q = fs.lookupFile q := by
  cases m? <;> rfl

theorem hasDirB_applyPerm (fs : FS) (p q : FPath) (m? : Option Nat) :
    (applyPerm fs p m?).hasDirB q = fs.hasDirB q := by
  cases m? <;> rfl

/-! ### `create_dir_all` lemmas -/

theorem mkdirGo_files (fs fs' : FS) (l : List FPath)
    (h : mkdirGo fs l = some fs') : fs'.files = fs.files := by
  induction l generalizing fs with
  | nil =>
    simp [mkdirGo] at h
    exact h ▸ rfl
  | cons q rest ih =>
    unfold mkdirGo at h
    by_cases hd : fs.hasDirB q
    · simp [hd] at h
      exact ih fs h
    · by_cases hf : fs.hasFileB q
      · simp [hd, hf] at h
      · simp [hd, hf] at h
        exact ih { fs with dirs := q :: fs.dirs } h

theorem mkdirGo_perms (fs fs' : FS) (l : List FPath)
    (h : mkdirGo fs l = some fs') : fs'.perms = fs.perms := by
  induction l generalizing fs with
  | nil =>
    simp [mkdirGo] at h
    exact h ▸ rfl
  | cons q rest ih =>
    unfold mkdirGo at h
    by_cases hd : fs.hasDirB q
    · simp [hd] at h
      exact ih fs h
    · by_cases hf : fs.hasFileB q
      · simp [hd, hf] at h
      · simp [hd, hf] at h
        exact ih { fs with dirs := q :: fs.dirs } h

theorem lookupFile_mkdirGo (fs fs' : FS) (l : List FPath) (p : FPath)
    (h : mkdirGo fs l = some fs') : fs'.lookupFile p = fs.lookupFile p := by
  unfold FS.lookupFile
  rw [mkdirGo_files fs fs' l h]

theorem hasFileB_mkdirGo (fs fs' : FS) (l : List FPath) (p : FPath)
    (h : mkdirGo fs l = some fs') : fs'.hasFileB p = fs.hasFileB p := by
  unfold FS.hasFileB
  rw [lookupFile_mkdirGo fs fs' l p h]

theorem hasDirB_mkdirGo_mono (fs fs' : FS) (l : List FPath) (p : FPath)
    (h : mkdirGo fs l = some fs') (hp : fs.hasDirB p = true) :
    fs'.hasDirB p = true := by
  induction l generalizing fs with
  | nil =>
    simp [mkdirGo] at h
    exact h ▸ hp
  | cons q rest ih =>
    unfold mkdirGo at h
    by_cases hd : fs.hasDirB q
    · simp [hd] at h
      exact ih fs h hp
    · by_cases hf : fs.hasFileB q
      · simp [hd, hf] at h
      · simp [hd, hf] at h
        refine ih _ h ?_
        simp [FS.hasDirB] at hp ⊢
        exact Or.inr hp

theorem mkdirGo_mem (fs fs' : FS) (l : List FPath) (q : FPath)
    (h : mkdirGo fs l = some fs') (hq : q ∈ l) : fs'.hasDirB q = true := by
  induction l generalizing fs with
  | nil => cases hq
  | cons a rest ih =>
    unfold mkdirGo at h
    by_cases hd : fs.hasDirB a
    · simp [hd] at h
      rcases List.mem_cons.mp hq with h1 | h1
      · exact hasDirB_mkdirGo_mono fs fs' rest q h (h1 ▸ hd)
      · exact ih fs h h1
    · by_cases hf : fs.hasFileB a
      · simp [hd, hf] at h
      · simp [hd, hf] at h
        rcases List.mem_cons.mp hq with h1 | h1
        · subst h1
          refine hasDirB_mkdirGo_mono _ fs' rest q h ?_
          simp [FS.hasDirB]
        · exact ih _ h h1

theorem mkdirGo_noop (fs : FS) (l : List FPath)
    (h : ∀ q ∈ l, fs.hasDirB q = true) : mkdirGo fs l = some fs := by
  induction l with
  | nil => rfl
  | cons a rest ih =>
    unfold mkdirGo
    have ha := h a (List.mem_cons_self a rest)
    simp [ha]
    exact ih (fun q hq => h q (List.mem_cons_of_mem a hq))

theorem mkdirAll_files (fs fs' : FS) (p : FPath)
    (h : mkdirAll fs p = some fs') : fs'.files = fs.files :=
  mkdirGo_files fs fs' _ h

theorem lookupFile_mkdirAll (fs fs' : FS) (p q : FPath)
    (h : mkdirAll fs p = some fs') : fs'.lookupFile q = fs.lookupFile q :=
  lookupFile_mkdirGo fs fs' _ q h

theorem hasDirB_mkdirAll_mono (fs fs' : FS) (p q : FPath)
    (h : mkdirAll fs p = some fs') (hq : fs.hasDirB q = true) :
    fs'.hasDirB q = true :=
  hasDirB_mkdirGo_mono fs fs' _ q h hq

theorem mkdirAll_mem (fs fs' : FS) (p q : FPath)
    (h : mkdirAll fs p = some fs') (hq : q ∈ prefixesOf p) :
    fs'.hasDirB q = true :=
  mkdirGo_mem fs fs' _ q h hq

theorem mkdirAll_noop (fs : FS) (p : FPath)
    (h : ∀ q ∈ prefixesOf p, fs.hasDirB q = true) : mkdirAll fs p = some fs :=
  mkdirGo_noop fs _ h

theorem self_mem_prefixesOf (p : FPath) (h : p ≠ []) : p ∈ prefixesOf p := by
  have hl : 0 < p.length := List.length_pos.mpr h
  refine List.mem_map.mpr ⟨p.length - 1, ?_, ?_⟩
  · exact List.mem_range.mpr (by omega)
  · rw [Nat.sub_add_cancel hl]
    exact List.take_length p

/-! ### Growth ordering between filesystem snapshots -/

/-- `fs ≤ fs'`: every file and directory of `fs` is still present in
`fs'` (contents may differ; used only for existence reasoning). -/
def FS.le (fs fs' : FS) : Prop :=
  (∀ k, fs.hasFileB k = true → fs'.hasFileB k = true) ∧
  (∀ k, fs.hasDirB k = true → fs'.hasDirB k = true)

theorem FS.le_refl (fs : FS) : FS.le fs fs := ⟨fun _ h => h, fun _ h => h⟩

theorem FS.le_trans {a b c : FS} (h1 : FS.le a b) (h2 : FS.le b c) :
    FS.le a c :=
  ⟨fun k h => h2.1 k (h1.1 k h), fun k h => h2.2 k (h1.2 k h)⟩

theorem existsB_of_le {fs fs' : FS} (h : FS.le fs fs') (k : FPath)
    (hk : fs.existsB k = true) : fs'.existsB k = true := by
  rcases Bool.or_eq_true_iff.mp hk with h1 | h1
  · exact Bool.or_eq_true_iff.mpr (Or.inl (h.1 k h1))
  · exact Bool.or_eq_true_iff.mpr (Or.inr (h.2 k h1))

theorem setFile_le (fs : FS) (p : FPath) (c : String) :
    FS.le fs (fs.setFile p c) :=
  ⟨fun k hk => hasFileB_setFile_mono fs p k c hk,
   fun k hk => by simpa [hasDirB_setFile] using hk⟩

theorem mkdirAll_le (fs fs' : FS) (p : FPath) (h : mkdirAll fs p = some fs') :
    FS.le fs fs' :=
  ⟨fun k hk => by rw [hasFileB_mkdirGo fs fs' _ k h]; exact hk,
   fun k hk => hasDirB_mkdirAll_mono fs fs' p k h hk⟩

theorem applyPerm_le (fs : FS) (p : FPath) (m? : Option Nat) :
    FS.le fs (applyPerm fs p m?) := by
  cases m? with
  | none => exact FS.le_refl fs
  | some m => exact ⟨fun k hk => hk, fun k hk => hk⟩

/-! ## Facts about `str::replace` -/

theorem listReplaceF_congr (pat rep : List Char) (hp : pat ≠ []) :
    ∀ f f' s, s.length ≤ f → s.length ≤ f' →
      listReplaceF pat rep f s = listReplaceF pat rep f' s := by
  intro f
  induction f with
  | zero =>
    intro f' s hf _
    have : s = [] := List.length_eq_zero.mp (Nat.le_zero.mp hf)
    subst this
    cases f' <;> rfl
  | succ f ih =>
    intro f' s hf hf'
    cases s with
    | nil => cases f' <;> rfl
    | cons c rest =>
      cases f' with
      | zero => simp at hf'
      | succ f' =>
        have hlen : pat.length ≥ 1 := by
          cases pat with
          | nil => exact absurd rfl hp
          | cons a l => simp
        simp only [listReplaceF]
        by_cases hpre : pat <+: (c :: rest)
        · simp only [if_pos hpre]
          have hd : ((c :: rest).drop pat.length).length ≤ f := by
            simp only [List.length_drop, List.length_cons]
            simp only [List.length_cons] at hf
            omega
          have hd' : ((c :: rest).drop pat.length).length ≤ f' := by
            simp only [List.length_drop, List.length_cons]
            simp only [List.length_cons] at hf'
            omega
          rw [ih f' _ hd hd']
        · simp only [if_neg hpre]
          have hr : rest.length ≤ f := by
            simp only [List.length_cons] at hf
            omega
          have hr' : rest.length ≤ f' := by
            simp only [List.length_cons] at hf'
            omega
          rw [ih f' rest hr hr']

theorem listReplace_nil (pat rep : List Char) (hp : pat ≠ []) :
    listReplace pat rep [] = [] := by
  unfold listReplace
  simp [hp, listReplaceF]

theorem listReplace_cons (pat rep : List Char) (hp : pat ≠ [])
    (c : Char) (rest : List Char) :
    listReplace pat rep (c :: rest) =
      if pat <+: (c :: rest) then
        rep ++ listReplace pat rep ((c :: rest).drop pat.length)
      else c :: listReplace pat rep rest := by
  have hlen : pat.length ≥ 1 := by
    cases pat with
    | nil => exact absurd rfl hp
    | cons a l => simp
  unfold listReplace
  simp only [hp, if_neg, ite_false]
  have h1 : listReplaceF pat rep (c :: rest).length (c :: rest) =
      listReplaceF pat rep (rest.length + 1) (c :: rest) := rfl
  rw [h1]
  simp only [listReplaceF]
  by_cases hpre : pat <+: (c :: rest)
  · simp only [if_pos hpre]
    congr 1
    apply listReplaceF_congr pat rep hp
    · simp only [List.length_drop, List.length_cons]
      omega
    · exact Nat.le_refl _
  · simp only [if_neg hpre]

theorem listReplace_no_occurrence (pat rep s : List Char)
    (h : ¬ pat <:+: s) : listReplace pat rep s = s := by
  have hp : pat ≠ [] := by
    intro he
    subst he
    exact h List.nil_infix
  induction s with
  | nil => exact listReplace_nil pat rep hp
  | cons c rest ih =>
    rw [listReplace_cons pat rep hp c rest]
    have hpre : ¬ pat <+: (c :: rest) := by
      intro hx
      exact h hx.isInfix
    rw [if_neg hpre]
    have hrest : ¬ pat <:+: rest := by
      intro hx
      apply h
      rcases hx with ⟨u, v, huv⟩
      exact ⟨c :: u, v, by rw [← huv]; rfl⟩
    rw [ih hrest]

theorem listReplace_self (pat rep : List Char) (hp : pat ≠ []) :
    listReplace pat rep pat = rep := by
  cases pat with
  | nil => exact absurd rfl hp
  | cons c rest =>
    rw [listReplace_cons (c :: rest) rep hp c rest]
    rw [if_pos (List.prefix_refl _)]
    rw [List.drop_length]
    rw [listReplace_nil _ rep hp]
    exact List.append_nil rep

theorem rustReplace_no_occurrence (s pat rep : String)
    (h : ¬ pat.data <:+: s.data) : rustReplace s pat rep = s := by
  unfold rustReplace
  rw [listReplace_no_occurrence pat.data rep.data s.data h]

theorem rustReplace_self (pat rep : String) (hp : pat.data ≠ []) :
    rustReplace pat pat rep = rep := by
  unfold rustReplace
  rw [listReplace_self pat.data rep.data hp]

/-! ## Facts about the materializer phases -/

theorem copyOp_eq_some (fs fs' : FS) (src dest : FPath)
    (h : copyOp fs src dest = some fs') :
    ∃ c, fs.lookupFile src = some c ∧ fs.hasDirB dest = false ∧
      fs' = fs.setFile dest c := by
  unfold copyOp at h
  cases hl : fs.lookupFile src with
  | none => rw [hl] at h; cases h
  | some c =>
    rw [hl] at h
    rcases writeFile_eq_some fs fs' dest c h with ⟨h1, h2⟩
    exact ⟨c, rfl, h1, h2⟩

theorem andThen_ok (m : MRes) (f : MSt → MRes) (st : MSt)
    (h : andThen m f = Except.ok st) :
    ∃ st0, m = Except.ok st0 ∧ f st0 = Except.ok st := by
  cases m with
  | error e => cases h
  | ok st0 => exact ⟨st0, rfl, h⟩

theorem finishRun_ok (m : MRes) (log : List String) (fs : FS)
    (h : finishRun m = (Except.ok log, fs)) :
    ∃ l0, m = Except.ok (l0, fs) ∧ log = l0 ++ [successLine] := by
  cases m with
  | error e =>
    cases e with
    | mk s f =>
      unfold finishRun at h
      cases h
  | ok st =>
    cases st with
    | mk l f =>
      unfold finishRun at h
      rcases Prod.mk.injEq _ _ _ _ ▸ h with h'
      injection h with h1 h2
      injection h1 with h1
      exact ⟨l, by rw [h2], h1.symm⟩

/-! ### Subdirectory phase -/

theorem subdirsPhase_files (pp : FPath) (ds : List String)
    (log log' : List String) (fs fs' : FS)
    (h : subdirsPhase pp ds (log, fs) = Except.ok (log', fs')) :
    fs'.files = fs.files := by
  induction ds generalizing log fs with
  | nil =>
    unfold subdirsPhase at h
    injection h with h
    injection h with _ h
    exact h ▸ rfl
  | cons d rest ih =>
    simp only [subdirsPhase] at h
    cases hmk : mkdirAll fs (pjoin pp d) with
    | none => rw [hmk] at h; cases h
    | some fs1 =>
      rw [hmk] at h
      rw [ih _ _ h]
      exact mkdirAll_files fs fs1 _ hmk

theorem subdirsPhase_le (pp : FPath) (ds : List String)
    (log log' : List String) (fs fs' : FS)
    (h : subdirsPhase pp ds (log, fs) = Except.ok (log', fs')) :
    FS.le fs fs' := by
  induction ds generalizing log fs with
  | nil =>
    unfold subdirsPhase at h
    injection h with h
    injection h with _ h
    exact h ▸ FS.le_refl fs
  | cons d rest ih =>
    simp only [subdirsPhase] at h
    cases hmk : mkdirAll fs (pjoin pp d) with
    | none => rw [hmk] at h; cases h
    | some fs1 =>
      rw [hmk] at h
      exact FS.le_trans (mkdirAll_le fs fs1 _ hmk) (ih _ _ h)

theorem subdirsPhase_post (pp : FPath) (ds : List String)
    (log log' : List String) (fs fs' : FS)
    (h : subdirsPhase pp ds (log, fs) = Except.ok (log', fs')) :
    ∀ d ∈ ds, ∀ q ∈ prefixesOf (pjoin pp d), fs'.hasDirB q = true := by
  induction ds generalizing log fs with
  | nil => intro d hd; cases hd
  | cons d0 rest ih =>
    simp only [subdirsPhase] at h
    cases hmk : mkdirAll fs (pjoin pp d0) with
    | none => rw [hmk] at h; cases h
    | some fs1 =>
      rw [hmk] at h
      intro d hd q hq
      rcases List.mem_cons.mp hd with h1 | h1
      · subst h1
        exact (subdirsPhase_le pp rest _ _ fs1 fs' h).2 q
          (mkdirAll_mem fs fs1 _ q hmk hq)
      · exact ih _ _ h d h1 q hq

theorem subdirsPhase_noop (pp : FPath) (ds : List String)
    (log : List String) (fs : FS)
    (h : ∀ d ∈ ds, ∀ q ∈ prefixesOf (pjoin pp d), fs.hasDirB q = true) :
    subdirsPhase pp ds (log, fs) =
      Except.ok (log ++ ds.map (fun d => creatingSubdirLine (pjoin pp d)), fs) := by
  induction ds generalizing log with
  | nil => simp [subdirsPhase]
  | cons d rest ih =>
    simp only [subdirsPhase]
    simp only [mkdirAll_noop fs (pjoin pp d) (h d (List.mem_cons_self d rest))]
    rw [ih _ (fun d' hd' => h d' (List.mem_cons_of_mem d hd'))]
    simp

/-! ### Template phase -/

theorem templatesPhase_le (psd pp : FPath) (refresh : Bool)
    (ts : List TemplateConfig) (log log' : List String) (fs fs' : FS)
    (h : templatesPhase psd pp refresh ts (log, fs) = Except.ok (log', fs')) :
    FS.le fs fs' := by
  induction ts generalizing log fs with
  | nil =>
    unfold templatesPhase at h
    injection h with h
    injection h with _ h
    exact h ▸ FS.le_refl fs
  | cons t rest ih =>
    simp only [templatesPhase] at h
    by_cases hc : fs.existsB (pjoin pp t.destination) && !refresh
    · rw [if_pos hc] at h
      exact ih _ _ h
    · rw [if_neg hc] at h
      by_cases hs : !(fs.existsB (pjoin psd t.source))
      · rw [if_pos hs] at h
        exact ih _ _ h
      · rw [if_neg hs] at h
        cases hmk : mkdirAll fs (parentPath (pjoin pp t.destination)) with
        | none => rw [hmk] at h; cases h
        | some fs1 =>
          simp only [hmk] at h
          cases hcp : copyOp fs1 (pjoin psd t.source) (pjoin pp t.destination) with
          | none => simp only [hcp] at h; cases h
          | some fs2 =>
            simp only [hcp] at h
            rcases copyOp_eq_some fs1 fs2 _ _ hcp with ⟨c, _, _, h2⟩
            refine FS.le_trans (mkdirAll_le fs fs1 _ hmk)
              (FS.le_trans ?_ (ih _ _ h))
            exact h2 ▸ setFile_le fs1 _ c

theorem templatesPhase_post (psd pp : FPath) (refresh : Bool)
    (ts : List TemplateConfig) (log log' : List String) (fs fs' : FS)
    (h : templatesPhase psd pp refresh ts (log, fs) = Except.ok (log', fs')) :
    ∀ t ∈ ts, fs'.existsB (pjoin pp t.destination) = true ∨
      fs.existsB (pjoin psd t.source) = false := by
  induction ts generalizing log fs with
  | nil => intro t ht; cases ht
  | cons t0 rest ih =>
    simp only [templatesPhase] at h
    by_cases hc : fs.existsB (pjoin pp t0.destination) && !refresh
    · rw [if_pos hc] at h
      intro t ht
      rcases List.mem_cons.mp ht with h1 | h1
      · subst h1
        left
        exact existsB_of_le (templatesPhase_le psd pp refresh rest _ _ fs fs' h)
          _ (Bool.and_eq_true_iff.mp hc).1
      · exact ih _ _ h t h1
    · rw [if_neg hc] at h
      by_cases hs : !(fs.existsB (pjoin psd t0.source))
      · rw [if_pos hs] at h
        intro t ht
        rcases List.mem_cons.mp ht with h1 | h1
        · subst h1
          right
          simpa using hs
        · exact ih _ _ h t h1
      · rw [if_neg hs] at h
        cases hmk : mkdirAll fs (parentPath (pjoin pp t0.destination)) with
        | none => rw [hmk] at h; cases h
        | some fs1 =>
          simp only [hmk] at h
          cases hcp : copyOp fs1 (pjoin psd t0.source) (pjoin pp t0.destination) with
          | none => simp only [hcp] at h; cases h
          | some fs2 =>
            simp only [hcp] at h
            rcases copyOp_eq_some fs1 fs2 _ _ hcp with ⟨c, _, _, h2⟩
            intro t ht
            rcases List.mem_cons.mp ht with h1 | h1
            · subst h1
              left
              refine existsB_of_le (templatesPhase_le psd pp refresh rest _ _ fs2 fs' h) _ ?_
              subst h2
              have : (fs1.setFile (pjoin pp t.destination) c).hasFileB
                  (pjoin pp t.destination) = true := by
                simp [FS.hasFileB, lookupFile_setFile_self]
              simp [FS.existsB, this]
            · rcases ih _ _ h t h1 with hL | hR
              · exact Or.inl hL
              · right
                by_contra hne
                have hx : fs.existsB (pjoin psd t.source) = true := by
                  cases hv : fs.existsB (pjoin psd t.source) with
                  | true => rfl
                  | false => exact absurd hv hne
                have h12 : FS.le fs fs2 :=
                  FS.le_trans (mkdirAll_le fs fs1 _ hmk)
                    (h2 ▸ setFile_le fs1 _ c)
                rw [existsB_of_le h12 _ hx] at hR
                cases hR

theorem templatesPhase_preserve (psd pp : FPath)
    (ts : List TemplateConfig) (log log' : List String) (fs fs' : FS)
    (h : templatesPhase psd pp false ts (log, fs) = Except.ok (log', fs'))
    (p : FPath) (hp : fs.existsB p = true) :
    fs'.lookupFile p = fs.lookupFile p ∧ fs'.existsB p = true := by
  induction ts generalizing log fs with
  | nil =>
    unfold templatesPhase at h
    injection h with h
    injection h with _ h
    subst h
    exact ⟨rfl, hp⟩
  | cons t rest ih =>
    simp only [templatesPhase] at h
    by_cases hc : fs.existsB (pjoin pp t.destination) && !false
    · rw [if_pos hc] at h
      exact ih _ _ h hp
    · rw [if_neg hc] at h
      by_cases hs : !(fs.existsB (pjoin psd t.source))
      · rw [if_pos hs] at h
        exact ih _ _ h hp
      · rw [if_neg hs] at h
        cases hmk : mkdirAll fs (parentPath (pjoin pp t.destination)) with
        | none => rw [hmk] at h; cases h
        | some fs1 =>
          simp only [hmk] at h
          cases hcp : copyOp fs1 (pjoin psd t.source) (pjoin pp t.destination) with
          | none => simp only [hcp] at h; cases h
          | some fs2 =>
            simp only [hcp] at h
            rcases copyOp_eq_some fs1 fs2 _ _ hcp with ⟨c, _, _, h2⟩
            have hdest : fs.existsB (pjoin pp t.destination) = false := by
              simpa using hc
            have hne : pjoin pp t.destination ≠ p := by
              intro he
              rw [he, hp] at hdest
              cases hdest
            have hp1 : fs1.existsB p = true :=
              existsB_of_le (mkdirAll_le fs fs1 _ hmk) p hp
            have hp2 : fs2.existsB p = true :=
              existsB_of_le (h2 ▸ setFile_le fs1 _ c) p hp1
            rcases ih _ _ h hp2 with ⟨ha, hb⟩
            refine ⟨?_, hb⟩
            rw [ha, h2, lookupFile_setFile_ne fs1 _ p c (fun he => hne he.symm),
              lookupFile_mkdirAll fs fs1 _ p hmk]

theorem templatesPhase_noop (psd pp : FPath) (ts : List TemplateConfig)
    (log : List String) (fs : FS)
    (h : ∀ t ∈ ts, fs.existsB (pjoin pp t.destination) = true ∨
      fs.existsB (pjoin psd t.source) = false) :
    templatesPhase psd pp false ts (log, fs) =
      Except.ok (log ++ ts.map (warnOrSkipLine psd pp fs), fs) := by
  induction ts generalizing log with
  | nil => simp [templatesPhase]
  | cons t rest ih =>
    simp only [templatesPhase]
    rcases h t (List.mem_cons_self t rest) with h1 | h1
    · have hc : (fs.existsB (pjoin pp t.destination) && !false) = true := by
        simp [h1]
      rw [if_pos hc]
      rw [ih _ (fun t' ht' => h t' (List.mem_cons_of_mem t ht'))]
      simp [warnOrSkipLine, h1]
    · by_cases hd : fs.existsB (pjoin pp t.destination)
      · have hc : (fs.existsB (pjoin pp t.destination) && !false) = true := by
          simp [hd]
        rw [if_pos hc]
        rw [ih _ (fun t' ht' => h t' (List.mem_cons_of_mem t ht'))]
        simp [warnOrSkipLine, hd]
      · have hc : ¬ ((fs.existsB (pjoin pp t.destination) && !false) = true) := by
          simp [hd]
        rw [if_neg hc]
        have hs : (!(fs.existsB (pjoin psd t.source))) = true := by
          simp [h1]
        rw [if_pos hs]
        rw [ih _ (fun t' ht' => h t' (List.mem_cons_of_mem t ht'))]
        have hdf : fs.existsB (pjoin pp t.destination) = false := by
          simpa using hd
        simp [warnOrSkipLine, hdf]

/-! ### Empty-file phase -/

theorem emptyFilesPhase_le (pp : FPath) (refresh : Bool) (l : List String)
    (log log' : List String) (fs fs' : FS)
    (h : emptyFilesPhase pp refresh l (log, fs) = Except.ok (log', fs')) :
    FS.le fs fs' := by
  induction l generalizing log fs with
  | nil =>
    unfold emptyFilesPhase at h
    injection h with h
    injection h with _ h
    exact h ▸ FS.le_refl fs
  | cons f rest ih =>
    simp only [emptyFilesPhase] at h
    by_cases hc : fs.existsB (pjoin pp f) && !refresh
    · rw [if_pos hc] at h
      exact ih _ _ h
    · rw [if_neg hc] at h
      cases hmk : mkdirAll fs (parentPath (pjoin pp f)) with
      | none => rw [hmk] at h; cases h
      | some fs1 =>
        simp only [hmk] at h
        cases hw : fs1.writeFile (pjoin pp f) "" with
        | none => simp only [hw] at h; cases h
        | some fs2 =>
          simp only [hw] at h
          rcases writeFile_eq_some fs1 fs2 _ _ hw with ⟨_, h2⟩
          refine FS.le_trans (mkdirAll_le fs fs1 _ hmk)
            (FS.le_trans (h2 ▸ setFile_le fs1 _ "") (ih _ _ h))

theorem emptyFilesPhase_post (pp : FPath) (refresh : Bool) (l : List String)
    (log log' : List String) (fs fs' : FS)
    (h : emptyFilesPhase pp refresh l (log, fs) = Except.ok (log', fs')) :
    ∀ f ∈ l, fs'.existsB (pjoin pp f) = true := by
  induction l generalizing log fs with
  | nil => intro f hf; cases hf
  | cons f0 rest ih =>
    simp only [emptyFilesPhase] at h
    by_cases hc : fs.existsB (pjoin pp f0) && !refresh
    · rw [if_pos hc] at h
      intro f hf
      rcases List.mem_cons.mp hf with h1 | h1
      · subst h1
        exact existsB_of_le (emptyFilesPhase_le pp refresh rest _ _ fs fs' h) _
          (Bool.and_eq_true_iff.mp hc).1
      · exact ih _ _ h f h1
    · rw [if_neg hc] at h
      cases hmk : mkdirAll fs (parentPath (pjoin pp f0)) with
      | none => rw [hmk] at h; cases h
      | some fs1 =>
        simp only [hmk] at h
        cases hw : fs1.writeFile (pjoin pp f0) "" with
        | none => simp only [hw] at h; cases h
        | some fs2 =>
          simp only [hw] at h
          rcases writeFile_eq_some fs1 fs2 _ _ hw with ⟨_, h2⟩
          intro f hf
          rcases List.mem_cons.mp hf with h1 | h1
          · subst h1
            refine existsB_of_le (emptyFilesPhase_le pp refresh rest _ _ fs2 fs' h) _ ?_
            subst h2
            have : (fs1.setFile (pjoin pp f) "").hasFileB (pjoin pp f) = true := by
              simp [FS.hasFileB, lookupFile_setFile_self]
            simp [FS.existsB, this]
          · exact ih _ _ h f h1

theorem emptyFilesPhase_preserve (pp : FPath) (l : List String)
    (log log' : List String) (fs fs' : FS)
    (h : emptyFilesPhase pp false l (log, fs) = Except.ok (log', fs'))
    (p : FPath) (hp : fs.existsB p = true) :
    fs'.lookupFile p = fs.lookupFile p ∧ fs'.existsB p = true := by
  induction l generalizing log fs with
  | nil =>
    unfold emptyFilesPhase at h
    injection h with h
    injection h with _ h
    subst h
    exact ⟨rfl, hp⟩
  | cons f rest ih =>
    simp only [emptyFilesPhase] at h
    by_cases hc : fs.existsB (pjoin pp f) && !false
    · rw [if_pos hc] at h
      exact ih _ _ h hp
    · rw [if_neg hc] at h
      cases hmk : mkdirAll fs (parentPath (pjoin pp f)) with
      | none => rw [hmk] at h; cases h
      | some fs1 =>
        simp only [hmk] at h
        cases hw : fs1.writeFile (pjoin pp f) "" with
        | none => simp only [hw] at h; cases h
        | some fs2 =>
          simp only [hw] at h
          rcases writeFile_eq_some fs1 fs2 _ _ hw with ⟨_, h2⟩
          have hf0 : fs.existsB (pjoin pp f) = false := by
            simpa using hc
          have hne : pjoin pp f ≠ p := by
            intro he
            rw [he, hp] at hf0
            cases hf0
          have hp1 : fs1.existsB p = true :=
            existsB_of_le (mkdirAll_le fs fs1 _ hmk) p hp
          have hp2 : fs2.existsB p = true :=
            existsB_of_le (h2 ▸ setFile_le fs1 _ "") p hp1
          rcases ih _ _ h hp2 with ⟨ha, hb⟩
          refine ⟨?_, hb⟩
          rw [ha, h2, lookupFile_setFile_ne fs1 _ p "" (fun he => hne he.symm),
            lookupFile_mkdirAll fs fs1 _ p hmk]

theorem emptyFilesPhase_noop (pp : FPath) (l : List String)
    (log : List String) (fs : FS)
    (h : ∀ f ∈ l, fs.existsB (pjoin pp f) = true) :
    emptyFilesPhase pp false l (log, fs) =
      Except.ok (log ++ l.map (fun f => skipEmptyLine (pjoin pp f)), fs) := by
  induction l generalizing log with
  | nil => simp [emptyFilesPhase]
  | cons f rest ih =>
    simp only [emptyFilesPhase]
    have hc : (fs.existsB (pjoin pp f) && !false) = true := by
      simp [h f (List.mem_cons_self f rest)]
    rw [if_pos hc]
    rw [ih _ (fun f' hf' => h f' (List.mem_cons_of_mem f hf'))]
    simp

/-! ### README phase -/

theorem readmePhase_le (pp : FPath) (cfg : PresetConfig) (pn : String)
    (df : List (String × String)) (refresh : Bool) (dt : String)
    (log log' : List String) (fs fs' : FS)
    (h : readmePhase pp cfg pn df refresh dt (log, fs) = Except.ok (log', fs')) :
    FS.le fs fs' := by
  simp only [readmePhase] at h
  by_cases hc : refresh || !(fs.existsB (pjoin pp "README.md"))
  · rw [if_pos hc] at h
    cases hw : fs.writeFile (pjoin pp "README.md")
        (fullReadme pn dt (substituteReadme cfg.readmeTemplate pn dt df)) with
    | none => rw [hw] at h; cases h
    | some fs1 =>
      simp only [hw] at h
      injection h with h
      injection h with _ h
      rcases writeFile_eq_some fs fs1 _ _ hw with ⟨_, h2⟩
      subst h
      exact h2 ▸ setFile_le fs _ _
  · rw [if_neg hc] at h
    injection h with h
    injection h with _ h
    exact h ▸ FS.le_refl fs

theorem readmePhase_post (pp : FPath) (cfg : PresetConfig) (pn : String)
    (df : List (String × String)) (dt : String)
    (log log' : List String) (fs fs' : FS)
    (h : readmePhase pp cfg pn df false dt (log, fs) = Except.ok (log', fs')) :
    fs'.existsB (pjoin pp "README.md") = true := by
  simp only [readmePhase] at h
  by_cases hc : (false : Bool) || !(fs.existsB (pjoin pp "README.md"))
  · rw [if_pos hc] at h
    cases hw : fs.writeFile (pjoin pp "README.md")
        (fullReadme pn dt (substituteReadme cfg.readmeTemplate pn dt df)) with
    | none => rw [hw] at h; cases h
    | some fs1 =>
      simp only [hw] at h
      injection h with h
      injection h with _ h
      rcases writeFile_eq_some fs fs1 _ _ hw with ⟨_, h2⟩
      subst h
      subst h2
      have : (fs.setFile (pjoin pp "README.md")
          (fullReadme pn dt (substituteReadme cfg.readmeTemplate pn dt df))).hasFileB
          (pjoin pp "README.md") = true := by
        simp [FS.hasFileB, lookupFile_setFile_self]
      simp [FS.existsB, this]
  · rw [if_neg hc] at h
    injection h with h
    injection h with _ h
    subst h
    simpa using hc

theorem readmePhase_noop (pp : FPath) (cfg : PresetConfig) (pn : String)
    (df : List (String × String)) (dt : String)
    (log : List String) (fs : FS)
    (h : fs.existsB (pjoin pp "README.md") = true) :
    readmePhase pp cfg pn df false dt (log, fs) = Except.ok (log, fs) := by
  simp only [readmePhase]
  have hc : ¬ ((false || !(fs.existsB (pjoin pp "README.md"))) = true) := by
    simp [h]
  rw [if_neg hc]

/-! ### Pipeline composition -/

theorem preReadme_ok (fs : FS) (pp pd : FPath) (cfg : PresetConfig)
    (r : Bool) (log1 : List String) (fs1 : FS)
    (h : preReadme fs pp pd cfg r = Except.ok (log1, fs1)) :
    ∃ fsA logB fsB logC fsC,
      mkdirAll fs pp = some fsA ∧
      subdirsPhase pp cfg.directories ([creatingProjectLine pp], fsA) =
        Except.ok (logB, fsB) ∧
      templatesPhase (pjoin pd cfg.id) pp r cfg.templates (logB, fsB) =
        Except.ok (logC, fsC) ∧
      emptyFilesPhase pp r cfg.emptyFiles (logC, fsC) =
        Except.ok (log1, fs1) := by
  unfold preReadme at h
  cases hmk : mkdirAll fs pp with
  | none => rw [hmk] at h; cases h
  | some fsA =>
    rw [hmk] at h
    rcases andThen_ok _ _ _ h with ⟨⟨logB, fsB⟩, hB, h2⟩
    rcases andThen_ok _ _ _ h2 with ⟨⟨logC, fsC⟩, hC, h3⟩
    exact ⟨fsA, logB, fsB, logC, fsC, rfl, hB, hC, h3⟩

theorem materialize_ok (fs : FS) (pp pd : FPath) (cfg : PresetConfig)
    (pn : String) (df : List (String × String)) (opts : List (String × Bool))
    (dt : String) (log : List String) (fs' : FS)
    (h : materialize fs pp pd cfg pn df opts dt = Except.ok (log, fs')) :
    ∃ log1 fs1,
      preReadme fs pp pd cfg (flag opts "refresh") = Except.ok (log1, fs1) ∧
      readmePhase pp cfg pn df (flag opts "refresh") dt (log1, fs1) =
        Except.ok (log, fs') := by
  unfold materialize at h
  rcases andThen_ok _ _ _ h with ⟨⟨log1, fs1⟩, h1, h2⟩
  exact ⟨log1, fs1, h1, h2⟩

theorem createProject_ok (fs : FS) (pp pd : FPath) (cfg : PresetConfig)
    (pn : String) (df : List (String × String)) (opts : List (String × Bool))
    (dt : String) (log : List String) (fs' : FS)
    (h : createProject fs pp pd cfg pn df opts dt = (Except.ok log, fs')) :
    ∃ l0, materialize fs pp pd cfg pn df opts dt = Except.ok (l0, fs') ∧
      log = l0 ++ [successLine] := by
  unfold createProject at h
  by_cases he : fs.existsB pp
  · rw [if_pos he] at h
    by_cases hd : fs.hasDirB pp
    · have hnd : ¬ ((!fs.hasDirB pp) = true) := by simp [hd]
      rw [if_neg hnd] at h
      by_cases hne : fs.nonEmptyB pp && !(flag opts "force")
      · rw [if_pos hne] at h
        injection h with h1 _
        cases h1
      · rw [if_neg hne] at h
        exact finishRun_ok _ _ _ h
    · have hnd : ((!fs.hasDirB pp) = true) := by simp [hd]
      rw [if_pos hnd] at h
      injection h with h1 _
      cases h1
  · rw [if_neg he] at h
    exact finishRun_ok _ _ _ h

theorem createProject_run (fs : FS) (pp pd : FPath) (cfg : PresetConfig)
    (pn : String) (df : List (String × String)) (opts : List (String × Bool))
    (dt : String)
    (h1 : fs.existsB pp = true → fs.hasDirB pp = true)
    (h2 : fs.existsB pp = true →
      (fs.nonEmptyB pp && !(flag opts "force")) = false) :
    createProject fs pp pd cfg pn df opts dt =
      finishRun (materialize fs pp pd cfg pn df opts dt) := by
  unfold createProject
  by_cases he : fs.existsB pp
  · rw [if_pos he]
    have hd := h1 he
    have hnd : ¬ ((!fs.hasDirB pp) = true) := by simp [hd]
    rw [if_neg hnd]
    have hne : ¬ ((fs.nonEmptyB pp && !(flag opts "force")) = true) := by
      simp [h2 he]
    rw [if_neg hne]
  · rw [if_neg he]

theorem preReadme_le (fs : FS) (pp pd : FPath) (cfg : PresetConfig)
    (r : Bool) (log1 : List String) (fs1 : FS)
    (h : preReadme fs pp pd cfg r = Except.ok (log1, fs1)) :
    FS.le fs fs1 := by
  rcases preReadme_ok fs pp pd cfg r log1 fs1 h with
    ⟨fsA, logB, fsB, logC, fsC, hmk, hB, hC, hE⟩
  exact FS.le_trans (mkdirAll_le fs fsA _ hmk)
    (FS.le_trans (subdirsPhase_le _ _ _ _ _ _ hB)
      (FS.le_trans (templatesPhase_le _ _ _ _ _ _ _ _ hC)
        (emptyFilesPhase_le _ _ _ _ _ _ _ hE)))

/-- The postconditions of a successful materializer run with `refresh`
unset, phrased at the final filesystem: the project directory tree and
every declared artifact exists, and each template either left its
destination present or found its source absent at the start. -/
theorem createProject_post (fs0 : FS) (pp pd : FPath) (cfg : PresetConfig)
    (pn : String) (df : List (String × String)) (opts : List (String × Bool))
    (dt : String) (log1 : List String) (fs1 : FS)
    (hr : flag opts "refresh" = false)
    (h1 : createProject fs0 pp pd cfg pn df opts dt = (Except.ok log1, fs1)) :
    (∀ q ∈ prefixesOf pp, fs1.hasDirB q = true) ∧
    (∀ d ∈ cfg.directories, ∀ q ∈ prefixesOf (pjoin pp d),
      fs1.hasDirB q = true) ∧
    (∀ t ∈ cfg.templates, fs1.existsB (pjoin pp t.destination) = true ∨
      fs0.existsB (pjoin (pjoin pd cfg.id) t.source) = false) ∧
    (∀ f ∈ cfg.emptyFiles, fs1.existsB (pjoin pp f) = true) ∧
    fs1.existsB (pjoin pp "README.md") = true := by
  rcases createProject_ok fs0 pp pd cfg pn df opts dt log1 fs1 h1 with
    ⟨l0, hm, _⟩
  rcases materialize_ok fs0 pp pd cfg pn df opts dt l0 fs1 hm with
    ⟨logP, fsP, hpre, hrd⟩
  rw [hr] at hpre hrd
  rcases preReadme_ok fs0 pp pd cfg false logP fsP hpre with
    ⟨fsA, logB, fsB, logC, fsC, hmk, hB, hC, hE⟩
  have leB : FS.le fsB fs1 :=
    FS.le_trans (templatesPhase_le _ _ _ _ _ _ _ _ hC)
      (FS.le_trans (emptyFilesPhase_le _ _ _ _ _ _ _ hE)
        (readmePhase_le _ _ _ _ _ _ _ _ _ _ hrd))
  have leC : FS.le fsC fs1 :=
    FS.le_trans (emptyFilesPhase_le _ _ _ _ _ _ _ hE)
      (readmePhase_le _ _ _ _ _ _ _ _ _ _ hrd)
  have leP : FS.le fsP fs1 := readmePhase_le _ _ _ _ _ _ _ _ _ _ hrd
  refine ⟨?_, ?_, ?_, ?_, ?_⟩
  · intro q hq
    exact leB.2 q ((subdirsPhase_le _ _ _ _ _ _ hB).2 q
      (mkdirAll_mem fs0 fsA pp q hmk hq))
  · intro d hd q hq
    exact leB.2 q (subdirsPhase_post _ _ _ _ _ _ hB d hd q hq)
  · intro t ht
    rcases templatesPhase_post _ _ _ _ _ _ _ _ hC t ht with hL | hR
    · exact Or.inl (existsB_of_le leC _ hL)
    · right
      by_contra hne
      have hx : fs0.existsB (pjoin (pjoin pd cfg.id) t.source) = true := by
        cases hv : fs0.existsB (pjoin (pjoin pd cfg.id) t.source) with
        | true => rfl
        | false => exact absurd hv hne
      have le0B : FS.le fs0 fsB :=
        FS.le_trans (mkdirAll_le fs0 fsA _ hmk) (subdirsPhase_le _ _ _ _ _ _ hB)
      rw [existsB_of_le le0B _ hx] at hR
      cases hR
  · intro f hf
    exact existsB_of_le leP _ (emptyFilesPhase_post _ _ _ _ _ _ _ hE f hf)
  · exact readmePhase_post _ _ _ _ _ _ _ _ _ hrd

/-! ### Extraction lemmas -/

theorem extractEntry_skip (td : FPath) (fs : FS) (e : ZEntry)
    (h : entryOut e = none) : extractEntry td fs e = Except.ok fs := by
  unfold extractEntry
  rw [h]

theorem extractEntry_lookup (td : FPath) (fs fs' : FS) (e : ZEntry)
    (p : FPath) (h : extractEntry td fs e = Except.ok fs')
    (hp : fileDest td e ≠ some p) : fs'.lookupFile p = fs.lookupFile p := by
  unfold extractEntry at h
  cases hout : entryOut e with
  | none =>
    rw [hout] at h
    injection h with h
    rw [h]
  | some out =>
    simp only [hout] at h
    by_cases hd : isDirEntry e
    · rw [if_pos hd] at h
      cases hmk : mkdirAll fs (td ++ out) with
      | none => rw [hmk] at h; cases h
      | some fs1 =>
        simp only [hmk] at h
        injection h with h
        rw [← h, lookupFile_applyPerm, lookupFile_mkdirAll fs fs1 _ p hmk]
    · rw [if_neg hd] at h
      have hdf : isDirEntry e = false := by simpa using hd
      have hne : td ++ out ≠ p := by
        intro he
        apply hp
        unfold fileDest
        rw [hout, hdf]
        simp [he]
      cases hmk : mkdirAll fs (parentPath (td ++ out)) with
      | none => rw [hmk] at h; cases h
      | some fs1 =>
        simp only [hmk] at h
        cases hw : fs1.writeFile (td ++ out) e.content with
        | none => simp only [hw] at h; cases h
        | some fs2 =>
          simp only [hw] at h
          injection h with h
          rcases writeFile_eq_some fs1 fs2 _ _ hw with ⟨_, h2⟩
          rw [← h, lookupFile_applyPerm, h2,
            lookupFile_setFile_ne fs1 _ p e.content (fun he => hne he.symm),
            lookupFile_mkdirAll fs fs1 _ p hmk]

theorem extractEntry_written (td : FPath) (fs fs' : FS) (e : ZEntry)
    (out : FPath) (hout : entryOut e = some out)
    (hfile : isDirEntry e = false)
    (h : extractEntry td fs e = Except.ok fs') :
    fs'.lookupFile (td ++ out) = some e.content ∧
    ∀ q, q ≠ td ++ out → fs'.lookupFile q = fs.lookupFile q := by
  unfold extractEntry at h
  simp only [hout] at h
  have hd : ¬ (isDirEntry e = true) := by simp [hfile]
  rw [if_neg hd] at h
  cases hmk : mkdirAll fs (parentPath (td ++ out)) with
  | none => rw [hmk] at h; cases h
  | some fs1 =>
    simp only [hmk] at h
    cases hw : fs1.writeFile (td ++ out) e.content with
    | none => simp only [hw] at h; cases h
    | some fs2 =>
      simp only [hw] at h
      injection h with h
      rcases writeFile_eq_some fs1 fs2 _ _ hw with ⟨_, h2⟩
      constructor
      · rw [← h, lookupFile_applyPerm, h2, lookupFile_setFile_self]
      · intro q hq
        rw [← h, lookupFile_applyPerm, h2,
          lookupFile_setFile_ne fs1 _ q e.content hq,
          lookupFile_mkdirAll fs fs1 _ q hmk]

theorem extractAll_lookup (td : FPath) (entries : List ZEntry) (fs fs' : FS)
    (p : FPath) (h : extractAll td entries fs = Except.ok fs')
    (hp : ∀ e ∈ entries, fileDest td e ≠ some p) :
    fs'.lookupFile p = fs.lookupFile p := by
  induction entries generalizing fs with
  | nil =>
    unfold extractAll at h
    injection h with h
    rw [h]
  | cons e rest ih =>
    unfold extractAll at h
    cases hx : extractEntry td fs e with
    | error m => rw [hx] at h; cases h
    | ok fs1 =>
      rw [hx] at h
      rw [ih fs1 h (fun e' he' => hp e' (List.mem_cons_of_mem e he'))]
      exact extractEntry_lookup td fs fs1 e p hx
        (hp e (List.mem_cons_self e rest))

/-! ## Claim theorems -/

/-- C2: when `targetRoot` exists as a directory whose listing is
non-empty and `force` is unset, `create_project` fails with the
`TargetNotEmpty` error naming the path and leaves the filesystem
unchanged; when the directory exists but has zero entries, the emptiness
check passes and the run proceeds exactly as it would for a fresh target
(in particular it is not an error). -/
theorem c2_target_not_empty (fs : FS) (pp pd : FPath) (cfg : PresetConfig)
    (pn : String) (df : List (String × String)) (opts : List (String × Bool))
    (dt : String) :
    (fs.hasDirB pp = true → fs.nonEmptyB pp = true → flag opts "force" = false →
      createProject fs pp pd cfg pn df opts dt = (Except.error (notEmptyMsg pp), fs))
    ∧ (fs.hasDirB pp = true → fs.nonEmptyB pp = false →
      createProject fs pp pd cfg pn df opts dt =
        finishRun (materialize fs pp pd cfg pn df opts dt)) := by
  constructor
  · intro hd hne hf
    unfold createProject
    have he : fs.existsB pp = true := by simp [FS.existsB, hd]
    rw [if_pos he]
    have hnd : ¬ ((!fs.hasDirB pp) = true) := by simp [hd]
    rw [if_neg hnd]
    have hc : (fs.nonEmptyB pp && !(flag opts "force")) = true := by
      simp [hne, hf]
    rw [if_pos hc]
  · intro hd hne
    apply createProject_run
    · intro _
      exact hd
    · intro _
      simp [hne]

/-- Witness for C2 at a concrete non-empty target. -/
theorem c2_witness :
    (wBusyFS.hasDirB wProj = true ∧ wBusyFS.nonEmptyB wProj = true ∧
      flag [] "force" = false) ∧
    createProject wBusyFS wProj wPresets wCfg "demo" [] [] "D" =
      (Except.error (notEmptyMsg wProj), wBusyFS) :=
  ⟨⟨rfl, rfl, rfl⟩,
    (c2_target_not_empty wBusyFS wProj wPresets wCfg "demo" [] [] "D").1
      rfl rfl rfl⟩

/-- C3: the extraction loop never deletes or modifies a file that is not
the write destination of some archive entry: for every path `p` that is
not `fileDest` of any entry, a successful run leaves the file content at
`p` exactly as it was. -/
theorem c3_extraction_frame (td : FPath) (entries : List ZEntry)
    (fs fs' : FS) (p : FPath)
    (h : extractAll td entries fs = Except.ok fs')
    (hp : ∀ e ∈ entries, fileDest td e ≠ some p) :
    fs'.lookupFile p = fs.lookupFile p :=
  extractAll_lookup td entries fs fs' p h hp

/-- Witness for C3: `keepme.txt` survives extraction of an unrelated
entry with unchanged content. -/
theorem c3_witness :
    (∀ e ∈ [wGoodEntry], fileDest wTd e ≠ some wKeepPath) ∧
    extractAll wTd [wGoodEntry] wKeepFS = Except.ok wKeepPostFS ∧
    wKeepPostFS.lookupFile wKeepPath = some "old" :=
  ⟨by decide, rfl,
    (c3_extraction_frame wTd [wGoodEntry] wKeepFS wKeepPostFS wKeepPath rfl
      (by decide)).trans rfl⟩

/-- C9: a file entry accepted by `enclosed_name` whose first component is
the published root folder `ai_prompt_presets-main` is written to
`targetDir` joined with the remaining components (the prefix is stripped);
an accepted entry that does not start with that prefix is joined to
`targetDir` unchanged.  In both cases nothing else is written file-wise. -/
theorem c9_strip_root (td : FPath) (fs : FS) (e : ZEntry) (comps : FPath)
    (henc : enclosedName e.name = some comps)
    (hfile : isDirEntry e = false) :
    (∀ rest, comps = PathComp.normal "ai_prompt_presets-main" :: rest →
      ∀ fs', extractEntry td fs e = Except.ok fs' →
        fs'.lookupFile (td ++ rest) = some e.content ∧
        ∀ q, q ≠ td ++ rest → fs'.lookupFile q = fs.lookupFile q)
    ∧ (comps.head? ≠ some (PathComp.normal "ai_prompt_presets-main") →
      ∀ fs', extractEntry td fs e = Except.ok fs' →
        fs'.lookupFile (td ++ comps) = some e.content ∧
        ∀ q, q ≠ td ++ comps → fs'.lookupFile q = fs.lookupFile q) := by
  constructor
  · intro rest hcomps fs' h
    have hout : entryOut e = some rest := by
      unfold entryOut
      rw [henc, hcomps]
      simp [stripPresetRoot]
    exact extractEntry_written td fs fs' e rest hout hfile h
  · intro hhd fs' h
    have hout : entryOut e = some comps := by
      unfold entryOut
      rw [henc]
      simp [stripPresetRoot, hhd]
    exact extractEntry_written td fs fs' e comps hout hfile h

/-- Witness for C9: the entry `ai_prompt_presets-main/a/b.txt` lands at
`<targetDir>/a/b.txt`. -/
theorem c9_witness :
    enclosedName wGoodEntry.name =
      some [PathComp.normal "ai_prompt_presets-main", PathComp.normal "a",
        PathComp.normal "b.txt"] ∧
    wEmptyPostFS.lookupFile
      (wTd ++ [PathComp.normal "a", PathComp.normal "b.txt"]) = some "new" :=
  ⟨rfl,
    ((c9_strip_root wTd wEmptyFS wGoodEntry
        [PathComp.normal "ai_prompt_presets-main", PathComp.normal "a",
          PathComp.normal "b.txt"] rfl rfl).1
      [PathComp.normal "a", PathComp.normal "b.txt"] rfl wEmptyPostFS rfl).1⟩

/-- C1 (code bug): the extractor validates each entry name with
`enclosed_name` *before* stripping the `ai_prompt_presets-main/` prefix,
so the entry `ai_prompt_presets-main/../evil.txt` — whose declared path
contains a `..` traversal segment — passes validation, is stripped to
`../evil.txt`, and its content is written at `targetDir/../evil.txt`,
which resolves to `evil.txt` in the *parent* of `targetDir`: a file is
created, and it is created outside `targetDir`, contradicting the claim
that such entries are skipped and never written outside the target. -/
theorem c1_traversal_code_bug :
    (extractAll wTd [wEvilEntry] wEmptyFS).map
      (fun fsx => fsx.lookupFile
        (wTd ++ [PathComp.parentDir, PathComp.normal "evil.txt"])) =
      Except.ok (some "owned") ∧
    resolveFrom [] (wTd ++ [PathComp.parentDir, PathComp.normal "evil.txt"]) =
      some ["home", "evil.txt"] ∧
    ¬ (["home", "presets"] <+: ["home", "evil.txt"]) :=
  ⟨rfl, rfl, by decide⟩

/-- C8: the three-way branch for each declared template, processed in
descriptor order.  (1) If the destination exists and `refresh` is unset, a
skip line is logged, the filesystem is untouched and processing continues
with the remaining templates — this branch fires *before* the source is
ever examined, so it applies even when the source is missing.  (2)
Otherwise, if the source does not exist, a warning line is logged and
processing continues without failing (`MissingTemplateSource` is
non-fatal).  (3) Otherwise the copy line is logged, the destination's
parent directories are created and the source's full content is copied to
the destination. -/
theorem c8_template_cases (psd pp : FPath) (refresh : Bool)
    (t : TemplateConfig) (rest : List TemplateConfig)
    (log : List String) (fs : FS) :
    (fs.existsB (pjoin pp t.destination) = true → refresh = false →
      templatesPhase psd pp refresh (t :: rest) (log, fs) =
        templatesPhase psd pp refresh rest
          (log ++ [skipTplLine (pjoin pp t.destination)], fs))
    ∧ ((fs.existsB (pjoin pp t.destination) && !refresh) = false →
      fs.existsB (pjoin psd t.source) = false →
      templatesPhase psd pp refresh (t :: rest) (log, fs) =
        templatesPhase psd pp refresh rest
          (log ++ [warnTplLine (pjoin psd t.source)], fs))
    ∧ ((fs.existsB (pjoin pp t.destination) && !refresh) = false →
      ∀ c fs1, fs.lookupFile (pjoin psd t.source) = some c →
        mkdirAll fs (parentPath (pjoin pp t.destination)) = some fs1 →
        fs1.hasDirB (pjoin pp t.destination) = false →
        templatesPhase psd pp refresh (t :: rest) (log, fs) =
          templatesPhase psd pp refresh rest
            (log ++ [copyTplLine (pjoin psd t.source) (pjoin pp t.destination)],
              fs1.setFile (pjoin pp t.destination) c)) := by
  refine ⟨?_, ?_, ?_⟩
  · intro hd hr
    simp only [templatesPhase]
    have hc : (fs.existsB (pjoin pp t.destination) && !refresh) = true := by
      simp [hd, hr]
    rw [if_pos hc]
  · intro hc hs
    simp only [templatesPhase]
    rw [if_neg (by simp [hc])]
    rw [if_pos (by simp [hs])]
  · intro hc c fs1 hsrc hmk hdest
    simp only [templatesPhase]
    rw [if_neg (by simp [hc])]
    have hs : fs.existsB (pjoin psd t.source) = true := by
      have : fs.hasFileB (pjoin psd t.source) = true := by
        simp [FS.hasFileB, hsrc]
      simp [FS.existsB, this]
    rw [if_neg (by simp [hs])]
    simp only [hmk]
    have hsrc1 : fs1.lookupFile (pjoin psd t.source) = some c := by
      rw [lookupFile_mkdirAll fs fs1 _ _ hmk]
      exact hsrc
    have hcp : copyOp fs1 (pjoin psd t.source) (pjoin pp t.destination) =
        some (fs1.setFile (pjoin pp t.destination) c) := by
      unfold copyOp
      simp only [hsrc1]
      unfold FS.writeFile
      rw [if_neg (by simp [hdest])]
    simp only [hcp]

/-- Witness for C8: a missing source on a fresh destination logs a
warning and continues, leaving the filesystem untouched. -/
theorem c8_witness :
    (wEmptyFS.existsB (pjoin wProj "a.txt") && !false) = false ∧
    templatesPhase (pjoin wPresets "sw") wProj false
        [{ source := "a.txt", destination := "a.txt" }] ([], wEmptyFS) =
      templatesPhase (pjoin wPresets "sw") wProj false []
        ([warnTplLine (pjoin (pjoin wPresets "sw") "a.txt")], wEmptyFS) :=
  ⟨rfl,
    (c8_template_cases (pjoin wPresets "sw") wProj false
      { source := "a.txt", destination := "a.txt" } [] [] wEmptyFS).2.1
      rfl rfl⟩

/-! ### README-phase consequences at the level of the whole run -/

theorem readme_written_of (fs : FS) (pp pd : FPath) (cfg : PresetConfig)
    (pn : String) (df : List (String × String)) (opts : List (String × Bool))
    (dt : String) (log1 : List String) (fs1 : FS) (logF : List String)
    (fsF : FS)
    (hpre : preReadme fs pp pd cfg (flag opts "refresh") =
      Except.ok (log1, fs1))
    (hgen : flag opts "refresh" = true ∨
      fs1.existsB (pjoin pp "README.md") = false)
    (hok : createProject fs pp pd cfg pn df opts dt = (Except.ok logF, fsF)) :
    fsF.lookupFile (pjoin pp "README.md") =
      some (fullReadme pn dt (substituteReadme cfg.readmeTemplate pn dt df)) := by
  rcases createProject_ok fs pp pd cfg pn df opts dt logF fsF hok with
    ⟨l0, hm, _⟩
  rcases materialize_ok fs pp pd cfg pn df opts dt l0 fsF hm with
    ⟨log1', fs1', hpre', hrd⟩
  rw [hpre] at hpre'
  injection hpre' with hpair
  have hfs : fs1' = fs1 := (congrArg Prod.snd hpair).symm
  rw [hfs] at hrd
  simp only [readmePhase] at hrd
  have hcond : (flag opts "refresh" ||
      !(fs1.existsB (pjoin pp "README.md"))) = true := by
    rcases hgen with hg | hg
    · simp [hg]
    · simp [hg]
  rw [if_pos hcond] at hrd
  cases hw : fs1.writeFile (pjoin pp "README.md")
      (fullReadme pn dt (substituteReadme cfg.readmeTemplate pn dt df)) with
  | none => rw [hw] at hrd; cases hrd
  | some fs2 =>
    simp only [hw] at hrd
    injection hrd with hrd
    rcases writeFile_eq_some fs1 fs2 _ _ hw with ⟨_, h2⟩
    have hfs2 : fs2 = fsF := congrArg Prod.snd hrd
    rw [← hfs2, h2, lookupFile_setFile_self]

theorem readme_skip_of (fs : FS) (pp pd : FPath) (cfg : PresetConfig)
    (pn : String) (df : List (String × String)) (opts : List (String × Bool))
    (dt : String) (log1 : List String) (fs1 : FS) (logF : List String)
    (fsF : FS)
    (hpre : preReadme fs pp pd cfg (flag opts "refresh") =
      Except.ok (log1, fs1))
    (hr : flag opts "refresh" = false)
    (hex : fs1.existsB (pjoin pp "README.md") = true)
    (hok : createProject fs pp pd cfg pn df opts dt = (Except.ok logF, fsF)) :
    fsF = fs1 := by
  rcases createProject_ok fs pp pd cfg pn df opts dt logF fsF hok with
    ⟨l0, hm, _⟩
  rcases materialize_ok fs pp pd cfg pn df opts dt l0 fsF hm with
    ⟨log1', fs1', hpre', hrd⟩
  rw [hpre] at hpre'
  injection hpre' with hpair
  have hfs : fs1' = fs1 := (congrArg Prod.snd hpair).symm
  rw [hfs] at hrd
  rw [hr] at hrd
  rw [readmePhase_noop pp cfg pn df dt log1' fs1 hex] at hrd
  injection hrd with hrd
  have hfs2 : fs1 = fsF := congrArg Prod.snd hrd
  exact hfs2.symm

theorem preReadme_preserve (fs : FS) (pp pd : FPath) (cfg : PresetConfig)
    (log1 : List String) (fs1 : FS)
    (h : preReadme fs pp pd cfg false = Except.ok (log1, fs1))
    (p : FPath) (hp : fs.existsB p = true) :
    fs1.lookupFile p = fs.lookupFile p ∧ fs1.existsB p = true := by
  rcases preReadme_ok fs pp pd cfg false log1 fs1 h with
    ⟨fsA, logB, fsB, logC, fsC, hmk, hB, hC, hE⟩
  have hA1 : fsA.lookupFile p = fs.lookupFile p :=
    lookupFile_mkdirAll fs fsA pp p hmk
  have hA2 : fsA.existsB p = true :=
    existsB_of_le (mkdirAll_le fs fsA pp hmk) p hp
  have hB1 : fsB.lookupFile p = fsA.lookupFile p := by
    unfold FS.lookupFile
    rw [subdirsPhase_files _ _ _ _ _ _ hB]
  have hB2 : fsB.existsB p = true :=
    existsB_of_le (subdirsPhase_le _ _ _ _ _ _ hB) p hA2
  rcases templatesPhase_preserve _ _ _ _ _ _ _ hC p hB2 with ⟨hC1, hC2⟩
  rcases emptyFilesPhase_preserve _ _ _ _ _ _ hE p hC2 with ⟨hE1, hE2⟩
  exact ⟨by rw [hE1, hC1, hB1, hA1], hE2⟩

/-- C4: whenever the README step regenerates (refresh set, or no README
present when the step runs), the final README content is exactly the
wrapper (level-1 heading with the project name, the creation line with
the timestamp, the "what's next" heading) around the body obtained from
`descriptor.readmeTemplate` by replacing `{PROJECT_NAME}` then
`{project_name}` with the project name, `{DATE}` then `{date}` with the
timestamp, and then, for every entry of the field mapping in iteration
order, the uppercase and lowercase brace-tokens of the field id with the
field's value — overwriting any existing README. -/
theorem c4_readme_content (fs : FS) (pp pd : FPath) (cfg : PresetConfig)
    (pn : String) (df : List (String × String)) (opts : List (String × Bool))
    (dt : String) (log1 : List String) (fs1 : FS) (logF : List String)
    (fsF : FS)
    (hpre : preReadme fs pp pd cfg (flag opts "refresh") =
      Except.ok (log1, fs1))
    (hgen : flag opts "refresh" = true ∨
      fs1.existsB (pjoin pp "README.md") = false)
    (hok : createProject fs pp pd cfg pn df opts dt = (Except.ok logF, fsF)) :
    fsF.lookupFile (pjoin pp "README.md") =
      some (fullReadme pn dt (substituteReadme cfg.readmeTemplate pn dt df)) :=
  readme_written_of fs pp pd cfg pn df opts dt log1 fs1 logF fsF hpre hgen hok

/-- Witness for C4 on a fresh target. -/
theorem c4_witness :
    ((createProject wEmptyFS wProj wPresets wCfg "demo" [] [] "D").2).lookupFile
        (pjoin wProj "README.md") =
      some "# demo\n\nСоздано: D\n\n## Что дальше\nR demo" := by
  exact c4_readme_content wEmptyFS wProj wPresets wCfg "demo" [] [] "D"
    _ _ _ _ rfl (Or.inr rfl) rfl

/-- C6: the README at `targetRoot/README.md` is rewritten exactly when
`refresh` is set or no README exists there when the README step runs
(first and second conjuncts); with `refresh` unset and a README present
at the start of the run, the whole materialization leaves the README's
content unchanged (third conjunct). -/
theorem c6_readme_policy (fs : FS) (pp pd : FPath) (cfg : PresetConfig)
    (pn : String) (df : List (String × String)) (opts : List (String × Bool))
    (dt : String) (log1 : List String) (fs1 : FS) (logF : List String)
    (fsF : FS)
    (hpre : preReadme fs pp pd cfg (flag opts "refresh") =
      Except.ok (log1, fs1))
    (hok : createProject fs pp pd cfg pn df opts dt = (Except.ok logF, fsF)) :
    ((flag opts "refresh" = true ∨
        fs1.existsB (pjoin pp "README.md") = false) →
      fsF.lookupFile (pjoin pp "README.md") =
        some (fullReadme pn dt (substituteReadme cfg.readmeTemplate pn dt df)))
    ∧ (flag opts "refresh" = false →
        fs1.existsB (pjoin pp "README.md") = true → fsF = fs1)
    ∧ (flag opts "refresh" = false →
        fs.existsB (pjoin pp "README.md") = true →
      fsF.lookupFile (pjoin pp "README.md") =
        fs.lookupFile (pjoin pp "README.md")) := by
  refine ⟨?_, ?_, ?_⟩
  · intro hgen
    exact readme_written_of fs pp pd cfg pn df opts dt log1 fs1 logF fsF
      hpre hgen hok
  · intro hr hex
    exact readme_skip_of fs pp pd cfg pn df opts dt log1 fs1 logF fsF
      hpre hr hex hok
  · intro hr hex0
    have hpre' := hpre
    rw [hr] at hpre'
    rcases preReadme_preserve fs pp pd cfg log1 fs1 hpre'
      (pjoin pp "README.md") hex0 with ⟨hl, hx⟩
    have hfsF : fsF = fs1 :=
      readme_skip_of fs pp pd cfg pn df opts dt log1 fs1 logF fsF
        hpre hr hx hok
    rw [hfsF, hl]

/-- Witness for C6: an existing README survives a default run untouched. -/
theorem c6_witness :
    ((createProject wReadmeFS wProj wPresets wCfg "demo" []
        [("force", true)] "D").2).lookupFile
        (pjoin wProj "README.md") = some "OLD" := by
  exact ((c6_readme_policy wReadmeFS wProj wPresets wCfg "demo" []
    [("force", true)] "D" _ _ _ _ rfl rfl).2.2 rfl rfl).trans rfl

/-- C7 counterexample: the descriptor `wCfgMyfield` declares the field
`myfield`, the supplied mapping is empty, and the README template is the
single token `{MYFIELD}`.  The claim predicts the token is replaced by the
empty string; the generated README instead carries the token verbatim
(the substitution loop iterates only over the supplied mapping and never
consults the declared fields). -/
theorem c7_counterexample :
    (createProject wEmptyFS wProj wPresets wCfgMyfield "demo" [] [] "D").2.lookupFile
        (pjoin wProj "README.md") =
      some "# demo\n\nСоздано: D\n\n## Что дальше\n{MYFIELD}" ∧
    ("# demo\n\nСоздано: D\n\n## Что дальше\n{MYFIELD}" : String) ≠
      "# demo\n\nСоздано: D\n\n## Что дальше\n" :=
  ⟨rfl, by decide⟩

/-- C7 as amended: fields declared in the descriptor but absent from the
supplied mapping are not substituted at all — their placeholder tokens are
left verbatim.  Substitution processes only the entries of the supplied
mapping: the materializer's result does not depend on the descriptor's
declared field list (first conjunct), and an unmapped field token passes
through substitution unchanged (second conjunct). -/
theorem c7_unmapped_fields_verbatim :
    (∀ (fs : FS) (pp pd : FPath) (cfg : PresetConfig) (pn : String)
      (df : List (String × String)) (opts : List (String × Bool))
      (dt : String) (fl1 fl2 : List FieldConfig),
      createProject fs pp pd { cfg with fields := fl1 } pn df opts dt =
        createProject fs pp pd { cfg with fields := fl2 } pn df opts dt)
    ∧ substituteReadme "{MYFIELD}" "demo" "2025-06-01 12:00" [] =
      "{MYFIELD}" := by
  constructor
  · intro fs pp pd cfg pn df opts dt fl1 fl2
    cases cfg
    rfl
  · rfl

/-- C10: README placeholder substitution is a sequence of whole-text
replacement passes, not a single pass over the original template: a token
contained in an already-substituted value is picked up by a later pass.
First conjunct: a project name that is literally `{date}` is substituted
by the project-name pass and then rewritten to the timestamp by the later
date pass, for every timestamp.  Second conjunct: a project name that is
literally `{myfield}` is rewritten to the mapped field value by the later
field pass, for every value. -/
theorem c10_sequential_replacement :
    (∀ dt : String,
      substituteReadme "{project_name}" "{date}" dt [] = dt)
    ∧ (∀ v : String,
      substituteReadme "{project_name}" "{myfield}" "D" [("myfield", v)] = v) := by
  constructor
  · intro dt
    unfold substituteReadme
    rw [rustReplace_no_occurrence "{project_name}" "{PROJECT_NAME}" "{date}"
      (by decide)]
    rw [rustReplace_self "{project_name}" "{date}" (by decide)]
    rw [rustReplace_no_occurrence "{date}" "{DATE}" dt (by decide)]
    rw [rustReplace_self "{date}" dt (by decide)]
    rfl
  · intro v
    unfold substituteReadme
    rw [rustReplace_no_occurrence "{project_name}" "{PROJECT_NAME}" "{myfield}"
      (by decide)]
    rw [rustReplace_self "{project_name}" "{myfield}" (by decide)]
    rw [rustReplace_no_occurrence "{myfield}" "{DATE}" "D" (by decide)]
    rw [rustReplace_no_occurrence "{myfield}" "{date}" "D" (by decide)]
    simp only [List.foldl]
    have hup : ("\x7b" ++ rustToUpper ("myfield", v).1 ++ "\x7d" : String) =
        "{MYFIELD}" := rfl
    have hlo : ("\x7b" ++ rustToLower ("myfield", v).1 ++ "\x7d" : String) =
        "{myfield}" := rfl
    rw [hup, hlo]
    rw [rustReplace_no_occurrence "{myfield}" "{MYFIELD}" v (by decide)]
    rw [rustReplace_self "{myfield}" v (by decide)]

/-- C5 counterexample: a first materialization of `wCfg` into an empty
filesystem succeeds (and always creates a README), so the target is
non-empty afterwards; invoking materialize a second time with the very
same inputs (`force` unset, as in the first run) does not log every
template/empty-file/README action as skipped — it fails up front with the
`TargetNotEmpty` error, logging nothing and performing nothing. -/
theorem c5_counterexample :
    (createProject wEmptyFS wProj wPresets wCfg "demo" [] [] "D").1.isOk = true ∧
    createProject (createProject wEmptyFS wProj wPresets wCfg "demo" [] [] "D").2
        wProj wPresets wCfg "demo" [] [] "D" =
      (Except.error (notEmptyMsg wProj),
        (createProject wEmptyFS wProj wPresets wCfg "demo" [] [] "D").2) :=
  ⟨rfl, rfl⟩

/-- C5 as amended: with `refresh` unset, a second materialize with the
same inputs leaves the filesystem literally identical to the state after
the first run, provided `force` is set (without it the second run fails
with `TargetNotEmpty` before doing anything, which also leaves the state
unchanged) and provided the first run did not itself manufacture a
template source (`hsrc`; automatic whenever the project tree does not
overlap the preset sources).  The second run's log consists of the
directory-creation lines, then one skip line per template whose
destination now exists and one warning line per template whose source is
(still) missing, then one skip line per declared empty file — and no
copy, empty-file-creation or README-generation line: the README step is
silently skipped rather than logged. -/
theorem c5_idempotent_with_force (fs0 : FS) (pp pd : FPath)
    (cfg : PresetConfig) (pn : String) (df : List (String × String))
    (opts : List (String × Bool)) (dt : String) (log1 : List String)
    (fs1 : FS)
    (hpp : pp ≠ [])
    (hr : flag opts "refresh" = false)
    (hf : flag opts "force" = true)
    (h1 : createProject fs0 pp pd cfg pn df opts dt = (Except.ok log1, fs1))
    (hsrc : ∀ t ∈ cfg.templates,
      fs1.existsB (pjoin (pjoin pd cfg.id) t.source) = true →
      fs0.existsB (pjoin (pjoin pd cfg.id) t.source) = true) :
    createProject fs1 pp pd cfg pn df opts dt =
      (Except.ok ([creatingProjectLine pp]
        ++ cfg.directories.map (fun d => creatingSubdirLine (pjoin pp d))
        ++ cfg.templates.map (warnOrSkipLine (pjoin pd cfg.id) pp fs1)
        ++ cfg.emptyFiles.map (fun f => skipEmptyLine (pjoin pp f))
        ++ [successLine]), fs1) := by
  rcases createProject_post fs0 pp pd cfg pn df opts dt log1 fs1 hr h1 with
    ⟨hPP, hDirs, hTpl, hEmp, hRd⟩
  have hTpl1 : ∀ t ∈ cfg.templates,
      fs1.existsB (pjoin pp t.destination) = true ∨
      fs1.existsB (pjoin (pjoin pd cfg.id) t.source) = false := by
    intro t ht
    rcases hTpl t ht with hL | hR
    · exact Or.inl hL
    · right
      cases hv : fs1.existsB (pjoin (pjoin pd cfg.id) t.source) with
      | false => rfl
      | true =>
        rw [hsrc t ht hv] at hR
        cases hR
  have hDirPP : fs1.hasDirB pp = true := hPP pp (self_mem_prefixesOf pp hpp)
  have hpre : preReadme fs1 pp pd cfg false =
      Except.ok ((([creatingProjectLine pp]
        ++ cfg.directories.map (fun d => creatingSubdirLine (pjoin pp d)))
        ++ cfg.templates.map (warnOrSkipLine (pjoin pd cfg.id) pp fs1))
        ++ cfg.emptyFiles.map (fun f => skipEmptyLine (pjoin pp f)), fs1) := by
    unfold preReadme
    simp only [mkdirAll_noop fs1 pp hPP]
    rw [subdirsPhase_noop pp cfg.directories _ fs1 hDirs]
    simp only [andThen]
    rw [templatesPhase_noop (pjoin pd cfg.id) pp cfg.templates _ fs1 hTpl1]
    simp only [andThen]
    rw [emptyFilesPhase_noop pp cfg.emptyFiles _ fs1 hEmp]
  rw [createProject_run fs1 pp pd cfg pn df opts dt (fun _ => hDirPP)
    (fun _ => by simp [hf])]
  unfold materialize
  rw [hr]
  rw [hpre]
  simp only [andThen]
  rw [readmePhase_noop pp cfg pn df dt _ fs1 hRd]
  simp only [finishRun]

/-- Witness for C5 (amended): a concrete first run with `force`, then a
second run that returns the same filesystem. -/
theorem c5_witness :
    (createProject wSrcFS wProj wPresets wCfg "demo" [] [("force", true)]
      "D").1.isOk = true ∧
    (createProject
        (createProject wSrcFS wProj wPresets wCfg "demo" []
          [("force", true)] "D").2
        wProj wPresets wCfg "demo" [] [("force", true)] "D").2 =
      (createProject wSrcFS wProj wPresets wCfg "demo" []
        [("force", true)] "D").2 := by
  refine ⟨rfl, ?_⟩
  have h := c5_idempotent_with_force wSrcFS wProj wPresets wCfg "demo" []
    [("force", true)] "D" _ _ (by decide) rfl rfl rfl (by decide)
  exact congrArg (fun x => x.2) h

end AiProjectTemplate
